import Mathlib

/-!
Verification of the battleship core (ship geometry, fleet generation,
automated targeting) against its natural-language specification.

The Python source is shallowly embedded: coordinates are `Int` pairs,
Python sets become `Finset`/list membership, `random.randint` is fed by an
explicit oracle of natural numbers, exceptions become `Option`/sum types,
and the potentially non-terminating retry loops take explicit fuel.
-/

namespace Battleship

abbrev Cell := Int × Int

/-- Chebyshev adjacency allowing identity: both coordinate differences are
at most one in absolute value ("within one grid-step, including diagonals"). -/
def chebAdj (a b : Cell) : Prop :=
  a.1 - b.1 ≤ 1 ∧ b.1 - a.1 ≤ 1 ∧ a.2 - b.2 ≤ 1 ∧ b.2 - a.2 ≤ 1

instance (a b : Cell) : Decidable (chebAdj a b) := by
  unfold chebAdj; infer_instance

/-- A bound that may be infinite: `none` models Python's `float("inf")`,
the default `board_width`/`board_height` of `Ship.__init__`. -/
def leBound (x : Int) (b : Option Int) : Bool :=
  match b with
  | none => true
  | some w => decide (x ≤ w)

/-- `Ship.get_cells` (ship.py lines 78-102) on the normalized coordinates.
Returns `none` on the `raise ValueError` branch (ship neither horizontal
nor vertical). -/
def getCellsAux (xs ys xe ye : Int) : Option (List Cell) :=
  if xs = xe ∧ ys = ye then
    some [(xs, ys)]
  else if ys = ye then
    some ((List.range (xe - xs + 1).toNat).map (fun (i : Nat) => (xs + (i : Int), ys)))
  else if xs = xe then
    some ((List.range (ye - ys + 1).toNat).map (fun (i : Nat) => (xs, ys + (i : Int))))
  else
    none

/-- The `Ship` object: normalized endpoint coordinates plus the board size
it was constructed with (`none` = the `float("inf")` default). -/
structure Ship where
  xStart : Int
  yStart : Int
  xEnd : Int
  yEnd : Int
  boardWidth : Option Int
  boardHeight : Option Int
deriving DecidableEq, Repr

/-- `Ship.__init__` (ship.py lines 10-51): normalizes the two endpoints
with min/max, optionally validates straightness (raising `ValueError`
otherwise, modelled as `none`), then computes the occupied cells (whose
own `ValueError` also aborts construction). -/
def mkShip (start stop : Cell) (validate : Bool) (bw bh : Option Int) : Option Ship :=
  if validate ∧ ¬(min start.2 stop.2 = max start.2 stop.2) ∧ ¬(min start.1 stop.1 = max start.1 stop.1) then
    none
  else
    match getCellsAux (min start.1 stop.1) (min start.2 stop.2)
        (max start.1 stop.1) (max start.2 stop.2) with
    | none => none
    | some _ =>
      some ⟨min start.1 stop.1, min start.2 stop.2, max start.1 stop.1, max start.2 stop.2, bw, bh⟩

/-- The set of occupied cells of a ship, as stored in `self.cells`.
For every constructible ship `getCellsAux` succeeds, so the default `[]`
is never reached on ships produced by `mkShip`. -/
def Ship.cells (s : Ship) : List Cell :=
  (getCellsAux s.xStart s.yStart s.xEnd s.yEnd).getD []

/-- `Ship.is_vertical`. -/
def Ship.isVertical (s : Ship) : Bool := s.xStart = s.xEnd

/-- `Ship.is_horizontal`. -/
def Ship.isHorizontal (s : Ship) : Bool := s.yStart = s.yEnd

/-- `Ship.length`. -/
def Ship.length (s : Ship) : Nat := s.cells.length

/-- `Ship.is_occupying_cell`. -/
def Ship.isOccupyingCell (s : Ship) (c : Cell) : Bool := c ∈ s.cells

/-- `Ship.receive_damage` (ship.py lines 127-148) acting on the mutable
`damaged_cells` set, passed and returned explicitly. -/
def receiveDamage (s : Ship) (damaged : Finset Cell) (c : Cell) : Bool × Finset Cell :=
  if s.isOccupyingCell c then (true, insert c damaged) else (false, damaged)

/-- `Ship.count_damaged_cells`. -/
def countDamagedCells (damaged : Finset Cell) : Nat := damaged.card

/-- `Ship.has_sunk` (ship.py lines 159-172): set equality between
`damaged_cells` and `cells`. -/
def hasSunk (s : Ship) (damaged : Finset Cell) : Bool := damaged = s.cells.toFinset

/-- Replay a sequence of `receive_damage` calls from a given damage set. -/
def damageRun (s : Ship) (damaged : Finset Cell) (attacks : List Cell) : Finset Cell :=
  attacks.foldl (fun d c => (receiveDamage s d c).2) damaged

/-- `Ship.get_neighbours` (ship.py lines 228-269), including the source's
guard on `bottom_left`, which tests `right` instead of `left`. The list
order mirrors the order of the tuple concatenations. -/
def Ship.getNeighbours (s : Ship) (c : Cell) : List Cell :=
  let rightOk := leBound c.1 s.boardWidth
  let leftOk := decide (2 ≤ c.1)
  let bottomOk := leBound c.2 s.boardHeight
  let topOk := decide (2 ≤ c.2)
  (if rightOk then [(c.1 + 1, c.2)] else []) ++
  (if leftOk then [(c.1 - 1, c.2)] else []) ++
  (if bottomOk then [(c.1, c.2 + 1)] else []) ++
  (if topOk then [(c.1, c.2 - 1)] else []) ++
  (if topOk && rightOk then [(c.1 + 1, c.2 - 1)] else []) ++
  (if topOk && leftOk then [(c.1 - 1, c.2 - 1)] else []) ++
  (if bottomOk && rightOk then [(c.1 + 1, c.2 + 1)] else []) ++
  (if bottomOk && rightOk then [(c.1 - 1, c.2 + 1)] else [])

/-- `Ship.is_near_cell` (ship.py lines 193-226). -/
def Ship.isNearCell (s : Ship) (c : Cell) : Bool :=
  s.cells.any (fun a => c ∈ s.getNeighbours a)

/-- `Ship.is_near_ship` (ship.py lines 174-191). -/
def Ship.isNearShip (s : Ship) (other : Ship) : Bool :=
  other.cells.any (fun b => s.isNearCell b)

/-- A cell is within the bounds a ship was constructed with (coordinates
at least 1, and within each board dimension when it is finite). -/
def inShipBounds (s : Ship) (c : Cell) : Prop :=
  1 ≤ c.1 ∧ leBound c.1 s.boardWidth = true ∧ 1 ≤ c.2 ∧ leBound c.2 s.boardHeight = true

instance (s : Ship) (c : Cell) : Decidable (inShipBounds s c) := by
  unfold inShipBounds; infer_instance

/-! ## Randomness

`random.randint(lo, hi)` draws one number from an explicit oracle list and
maps it into `[lo, hi]`; it fails (Python `ValueError`) when `hi < lo`,
and also when the oracle is exhausted (so that every returned result was
produced by finitely many draws). -/

def randint (lo hi : Int) : List Nat → Option (Int × List Nat)
  | [] => none
  | n :: r => if lo ≤ hi then some (lo + (n : Int) % (hi - lo + 1), r) else none

/-! ## ShipFactory (ship.py lines 272-464) -/

structure ShipFactory where
  boardWidth : Int
  boardHeight : Int
  shipsPerLength : List (Int × Nat)
deriving DecidableEq, Repr

/-- The per-ship work list implied by iterating `ships_per_length.items()`
with an inner loop over the count: one entry per ship to generate. -/
def flatLengths (fac : ShipFactory) : List Int :=
  (fac.shipsPerLength.map (fun q => List.replicate q.2 q.1)).flatten

/-- `ShipFactory.generate_random_coordinates` (ship.py lines 426-464). -/
def generateRandomCoordinates (fac : ShipFactory) (dimension : Int) (rnd : List Nat) :
    Option ((Cell × Cell) × List Nat) :=
  match randint 0 1 rnd with
  | none => none
  | some (cv, r1) =>
    if cv ≠ 0 then
      match randint 1 fac.boardWidth r1 with
      | none => none
      | some (x, r2) =>
        match randint 1 (fac.boardHeight - dimension + 1) r2 with
        | none => none
        | some (y, r3) => some (((x, y), (x, y + dimension - 1)), r3)
    else
      match randint 1 (fac.boardWidth - dimension + 1) r1 with
      | none => none
      | some (x, r2) =>
        match randint 1 fac.boardHeight r2 with
        | none => none
        | some (y, r3) => some (((x, y), (x + dimension - 1, y)), r3)

/-- `ShipFactory.is_ship_in_bound` (ship.py lines 389-407). -/
def isShipInBound (fac : ShipFactory) (s : Ship) : Bool :=
  decide (1 ≤ s.xStart ∧ s.xStart ≤ fac.boardWidth ∧
          1 ≤ s.xEnd ∧ s.xEnd ≤ fac.boardWidth ∧
          1 ≤ s.yStart ∧ s.yStart ≤ fac.boardHeight ∧
          1 ≤ s.yEnd ∧ s.yEnd ≤ fac.boardHeight)

/-- `ShipFactory.are_overlapping` (ship.py lines 409-424). -/
def areOverlapping (s other : Ship) : Bool :=
  s.cells.any (fun c => c ∈ other.cells)

/-- `ShipFactory.check_coordinates` (ship.py lines 356-387): `ship_to_test`
may be `None` (then the check fails); otherwise the candidate must be in
bound and neither overlap nor be near any already accepted ship. -/
def checkCoordinates (fac : ShipFactory) (ships : List Ship) (toTest : Option Ship) : Bool :=
  match toTest with
  | none => false
  | some s =>
    isShipInBound fac s &&
      ships.all (fun t => !(areOverlapping t s) && !(t.isNearShip s))

/-- Outcome of the inner `while` loop of `generate_ships` for one ship:
either a ship is accepted, or the iteration cap was exceeded and the whole
generation restarts. `attempts` counts calls to
`generate_random_coordinates` made for this ship. -/
inductive PlaceOut where
  | accept (ship : Ship) (attempts : Nat) (rnd : List Nat)
  | restart (attempts : Nat) (rnd : List Nat)
deriving DecidableEq, Repr

/-- The inner `while not(self.check_coordinates(ships, ship_to_test))` loop
of `generate_ships` (ship.py lines 336-352). `budget` is the number of
iterations still allowed before the counter exceeds `max_iterations = 10**3`;
the loop is entered with `budget = 1000`, matching
`number_of_iterations = 0`. A candidate generated when the budget is
exhausted (the 1001st) triggers the restart without being tested, exactly
as in the source, where the restart check follows the increment. -/
def placeLoop (fac : ShipFactory) (shipLen : Int) (ships : List Ship) :
    Option Ship → Nat → Nat → List Nat → Option PlaceOut
  | toTest, attempts, budget, rnd =>
    if checkCoordinates fac ships toTest then
      match toTest with
      | some s => some (.accept s attempts rnd)
      | none => none
    else
      match generateRandomCoordinates fac shipLen rnd with
      | none => none
      | some ((st, en), rnd') =>
        match mkShip st en true (some fac.boardWidth) (some fac.boardHeight) with
        | none => none
        | some ship =>
          match budget with
          | 0 => some (.restart (attempts + 1) rnd')
          | b + 1 => placeLoop fac shipLen ships (some ship) (attempts + 1) b rnd'

/-- Outcome of one full pass of `generate_ships` over the work list. -/
inductive GenOut where
  | done (ships : List Ship) (rnd : List Nat)
  | restart (rnd : List Nat)
  | fail
deriving DecidableEq, Repr

/-- The two nested `for` loops of `generate_ships` (ship.py lines 326-354),
flattened over `flatLengths`. `toTest` carries `ship_to_test` across
ships: after an acceptance it still holds the accepted ship, which then
fails `check_coordinates` (it overlaps itself) so a fresh candidate is
always generated. A restart signal aborts the pass, discarding `ships`. -/
def genList (fac : ShipFactory) :
    List Int → List Ship → Option Ship → List Nat → GenOut
  | [], ships, _, rnd => .done ships rnd
  | len :: rest, ships, toTest, rnd =>
    match placeLoop fac len ships toTest 0 1000 rnd with
    | none => .fail
    | some (.accept ship _ rnd') => genList fac rest (ships ++ [ship]) (some ship) rnd'
    | some (.restart _ rnd') => .restart rnd'

/-- `ShipFactory.generate_ships` (ship.py lines 311-354). On a restart the
source calls itself recursively and returns that result; `fuel` bounds the
number of such restarts (the source recursion is unbounded). -/
def genRun (fac : ShipFactory) : Nat → List Nat → Option (List Ship × List Nat)
  | 0, _ => none
  | fuel + 1, rnd =>
    match genList fac (flatLengths fac) [] none rnd with
    | .done ships rnd' => some (ships, rnd')
    | .restart rnd' => genRun fac fuel rnd'
    | .fail => none

/-! ## AutomaticPlayer (player.py lines 163-523) -/

structure PlayerState where
  boardWidth : Int
  boardHeight : Int
  tracker : Finset Cell
  sunkenShips : List Ship
  successfulHits : List Cell
deriving DecidableEq

/-- `AutomaticPlayer.get_neighbours` (player.py lines 466-509): in-board
4-neighbours, plus the diagonals when not hunting; the source's
`bottom_left` guard tests `right` instead of `left` and is kept as is. -/
def pNeighbours (p : PlayerState) (c : Cell) (cellHunt : Bool) : List Cell :=
  let rightOk := decide (c.1 ≤ p.boardWidth - 1)
  let leftOk := decide (2 ≤ c.1)
  let bottomOk := decide (c.2 ≤ p.boardHeight - 1)
  let topOk := decide (2 ≤ c.2)
  ((if rightOk then [(c.1 + 1, c.2)] else []) ++
   (if leftOk then [(c.1 - 1, c.2)] else []) ++
   (if bottomOk then [(c.1, c.2 + 1)] else []) ++
   (if topOk then [(c.1, c.2 - 1)] else [])) ++
  (if cellHunt then [] else
   (if topOk && rightOk then [(c.1 + 1, c.2 - 1)] else []) ++
   (if topOk && leftOk then [(c.1 - 1, c.2 - 1)] else []) ++
   (if bottomOk && rightOk then [(c.1 + 1, c.2 + 1)] else []) ++
   (if bottomOk && rightOk then [(c.1 - 1, c.2 + 1)] else []))

/-- `AutomaticPlayer.is_it_within_bounds` (player.py lines 511-522). -/
def isItWithinBounds (p : PlayerState) (c : Cell) : Bool :=
  decide (1 ≤ c.1 ∧ c.1 ≤ p.boardWidth ∧ 1 ≤ c.2 ∧ c.2 ≤ p.boardHeight)

/-- `AutomaticPlayer.is_close_to_ship` (player.py lines 333-350). -/
def isCloseToShip (p : PlayerState) (c : Cell) : Bool :=
  p.sunkenShips.any (fun s => s.isNearCell c)

/-- `AutomaticPlayer.get_random_coordinates` (player.py lines 352-361). -/
def getRandomCoordinates (p : PlayerState) (rnd : List Nat) : Option (Cell × List Nat) :=
  match randint 1 p.boardWidth rnd with
  | none => none
  | some (x, r1) =>
    match randint 1 p.boardHeight r1 with
    | none => none
    | some (y, r2) => some ((x, y), r2)

/-- `list_of_hits.index(cell)` followed by `pop(index)` for each cell of a
sunken ship: remove the first occurrence, failing (`ValueError`) when the
cell is absent. -/
def removeCells : List Cell → List Cell → Option (List Cell)
  | hits, [] => some hits
  | hits, c :: rest =>
    if c ∈ hits then removeCells (hits.erase c) rest else none

def removeShips : List Cell → List Ship → Option (List Cell)
  | hits, [] => some hits
  | hits, s :: rest =>
    match removeCells hits s.cells with
    | none => none
    | some hits' => removeShips hits' rest

/-- `AutomaticPlayer.is_there_a_hunt` (player.py lines 312-331). -/
def isThereAHunt (p : PlayerState) : Option (Bool × List Cell) :=
  match removeShips p.successfulHits p.sunkenShips with
  | none => none
  | some hits => some (decide (0 < hits.length), hits)

/-- The open hits as the specification describes them: recorded successful
hits that belong to no recorded sunken ship. -/
def openHits (p : PlayerState) : List Cell :=
  p.successfulHits.filter (fun c => p.sunkenShips.all (fun s => !(s.isOccupyingCell c)))

/-- One step of the neighbour scan of `get_all_cells`: a neighbour that is
a recorded successful hit and not the excluded cell is collected together
with the recursive flood from it. -/
def floodStep (p : PlayerState) (recurse : Cell → Option (List Cell)) (exceptCell : Cell)
    (acc : Option (List Cell)) (q : Cell) : Option (List Cell) :=
  match acc with
  | none => none
  | some l =>
    if q ∈ p.successfulHits ∧ q ≠ exceptCell then
      match recurse q with
      | none => none
      | some sub => some (l ++ q :: sub)
    else some l

/-- `AutomaticPlayer.get_all_cells` (player.py lines 439-464): recursive
flood over the 8-neighbour graph restricted to `successful_hits`, skipping
only the immediate parent. The Python recursion can diverge; `fuel` bounds
the depth, with `none` for a search the source would not complete. -/
def getAllCells (p : PlayerState) : Nat → Cell → Cell → Option (List Cell)
  | 0, _, _ => none
  | fuel + 1, cell, exceptCell =>
    (pNeighbours p cell false).foldl
      (floodStep p (fun q => getAllCells p fuel q cell) exceptCell) (some [])

/-- `AutomaticPlayer.is_this_ship_vertical` (player.py lines 427-437);
`cells[1]` raises `IndexError` when fewer than two cells are given. -/
def isThisShipVertical (cells : List Cell) : Option Bool :=
  match cells with
  | a :: b :: _ => some (decide (a.1 = b.1))
  | _ => none

/-- One step of the min/max scan in `find_start_and_end`: state is
`(start, end, running min, running max)` over the scanned coordinate. -/
def fseStep (vertical : Bool) (st : Option Cell × Option Cell × Int × Int) (c : Cell) :
    Option Cell × Option Cell × Int × Int :=
  let v := if vertical then c.2 else c.1
  let s1 := if v < st.2.2.1 then some c else st.1
  let mn1 := if v < st.2.2.1 then v else st.2.2.1
  let e1 := if st.2.2.2 < v then some c else st.2.1
  let mx1 := if st.2.2.2 < v then v else st.2.2.2
  (s1, e1, mn1, mx1)

/-- `AutomaticPlayer.find_start_and_end` (player.py lines 379-425). -/
def findStartAndEnd (p : PlayerState) (ffuel : Nat) (cell : Cell) : Option (Cell × Cell) :=
  match getAllCells p ffuel cell cell with
  | none => none
  | some flood =>
    let cells := flood ++ [cell]
    if cells.length = 1 then some (cell, cell)
    else
      match isThisShipVertical cells with
      | none => none
      | some vertical =>
        let init : Option Cell × Option Cell × Int × Int :=
          if vertical then (none, none, p.boardHeight + 1, 0)
          else (none, none, p.boardWidth + 1, 0)
        match cells.foldl (fseStep vertical) init with
        | (some s, some e, _, _) => some (s, e)
        | _ => none

/-- `AutomaticPlayer.get_better_target` (player.py lines 284-310);
`random.choice` between the two open ends consumes one oracle entry. -/
def getBetterTarget (p : PlayerState) (ffuel : Nat) (hits : List Cell) (rnd : List Nat) :
    Option (Cell × List Nat) :=
  match hits with
  | [] => none
  | c :: _ =>
    match findStartAndEnd p ffuel c with
    | none => none
    | some (s, e) =>
      let possible : Cell × Cell :=
        if s.1 = e.1 then ((s.1, s.2 - 1), (e.1, e.2 + 1))
        else ((s.1 - 1, s.2), (e.1 + 1, e.2))
      match rnd with
      | [] => none
      | n :: rnd' => some ((if n % 2 = 0 then possible.1 else possible.2), rnd')

/-- `AutomaticPlayer.hunting_cell` (player.py lines 253-282). -/
def huntingCell (p : PlayerState) (ffuel : Nat) (cell : Cell) (hits : List Cell)
    (rnd : List Nat) : Option (Bool × Cell × List Nat) :=
  if 1 < hits.length then
    match getBetterTarget p ffuel hits rnd with
    | none => none
    | some (t, rnd') => some (true, t, rnd')
  else
    match hits with
    | [] => none
    | h :: _ =>
      if cell ∈ pNeighbours p h true then some (true, cell, rnd)
      else some (false, cell, rnd)

/-- The candidate loop of `AutomaticPlayer.generate_random_target`
(player.py lines 216-241): draw a random cell, replace it by the hunting
candidate during a hunt, and accept once it is untried, in bounds, not
near a sunken ship, and a hunting cell. -/
def grtLoop (p : PlayerState) (ffuel : Nat) (hunt : Bool) (hits : List Cell) (sunken : Bool) :
    Nat → List Nat → Option (Cell × List Nat)
  | 0, _ => none
  | fuel + 1, rnd =>
    match getRandomCoordinates p rnd with
    | none => none
    | some (rc, rnd1) =>
      match (if hunt then huntingCell p ffuel rc hits rnd1 else some (true, rc, rnd1)) with
      | none => none
      | some (isHunting, cell, rnd2) =>
        if decide (cell ∈ p.tracker) || (if sunken then isCloseToShip p cell else false)
            || !isHunting || !(isItWithinBounds p cell) then
          grtLoop p ffuel hunt hits sunken fuel rnd2
        else
          some (cell, rnd2)

/-- `AutomaticPlayer.generate_random_target` (player.py lines 191-243). -/
def generateRandomTarget (p : PlayerState) (ffuel fuel : Nat) (rnd : List Nat) :
    Option (Cell × List Nat) :=
  match isThereAHunt p with
  | none => none
  | some (hunt, hits) =>
    grtLoop p ffuel hunt hits (decide (0 < p.sunkenShips.length)) fuel rnd

/-- `AutomaticPlayer.select_target` (player.py lines 179-189): pick the
target and add it to the tracker. -/
def selectTarget (p : PlayerState) (ffuel fuel : Nat) (rnd : List Nat) :
    Option (Cell × PlayerState × List Nat) :=
  match generateRandomTarget p ffuel fuel rnd with
  | none => none
  | some (c, rnd') => some (c, { p with tracker := insert c p.tracker }, rnd')

/-! ## Board

The `Board` class lives in `battleship/board.py`, which is not part of the
sources; only its tests and callers are. It is modelled from the spec. -/

inductive BoardError where
  | outOfBounds
  | shipsTooClose
deriving DecidableEq, Repr

structure Board where
  ships : List Ship
  width : Int
  height : Int
deriving DecidableEq

def inRectBounds (w h : Int) (c : Cell) : Bool :=
  decide (1 ≤ c.1 ∧ c.1 ≤ w ∧ 1 ≤ c.2 ∧ c.2 ≤ h)

/-- Two ships of an ordered fleet violate spacing when any cell of one is
within one grid-step (including diagonals, overlap included) of a cell of
a later one. -/
def pairsTooClose : List Ship → Bool
  | [] => false
  | s :: rest =>
    rest.any (fun t => s.cells.any (fun a => t.cells.any (fun b => decide (chebAdj a b)))) ||
      pairsTooClose rest

/-- Modelled from the spec: the `Board` constructor of the absent
`battleship/board.py`. Per spec sections 3 and 4.2 it takes an ordered
collection of ships plus dimensions, fails with a bounds violation if any
ship cell falls outside the grid, fails with an adjacency/overlap
violation if any two ships overlap or are mutually near, and otherwise
yields the fully constructed board. -/
def mkBoard (ships : List Ship) (w h : Int) : Except BoardError Board :=
  if ships.all (fun s => s.cells.all (inRectBounds w h)) then
    if pairsTooClose ships then .error .shipsTooClose else .ok ⟨ships, w, h⟩
  else .error .outOfBounds

/-- "Any two of the given ships overlap or are mutually near": some ship
and some later ship of the ordered fleet have cells that coincide or are
within one grid-step of each other. -/
def fleetViolation (ships : List Ship) : Prop :=
  ∃ s t, [s, t].Sublist ships ∧ ∃ a ∈ s.cells, ∃ b ∈ t.cells, (a = b ∨ chebAdj a b)

/-- A cell of the generation board: coordinates in `[1,width] x [1,height]`. -/
def inFacRect (fac : ShipFactory) (c : Cell) : Prop :=
  1 ≤ c.1 ∧ c.1 ≤ fac.boardWidth ∧ 1 ≤ c.2 ∧ c.2 ≤ fac.boardHeight

instance (fac : ShipFactory) (c : Cell) : Decidable (inFacRect fac c) := by
  unfold inFacRect; infer_instance

/-- The pairwise legality demanded of a generated fleet: distinct ships
share no cell and no cell of one is within one grid-step (including
diagonals) of a cell of the other. -/
def shipsSeparated (ships : List Ship) : Prop :=
  ships.Pairwise (fun s t =>
    (∀ a ∈ s.cells, a ∉ t.cells) ∧
    (∀ a ∈ s.cells, ∀ b ∈ t.cells, ¬ chebAdj a b))

/-- The `i`-th cell of a horizontal run starting at `(x0, y0)`. -/
def pathH (x0 y0 : Int) (i : Nat) : Cell := (x0 + i, y0)

/-- The `i`-th cell of a vertical run starting at `(x0, y0)`. -/
def pathV (x0 y0 : Int) (i : Nat) : Cell := (x0, y0 + i)

/-- The cells of a run that lie strictly after position `k`, in
increasing order: the expected rightward (or downward) flood result. -/
def tailAfter (path : Nat → Cell) (n k : Nat) : List Cell :=
  (List.range (n - 1 - k)).map (fun j => path (k + 1 + j))

/-- The cells of a run that lie strictly before position `k`, in
decreasing order: the expected leftward (or upward) flood result. -/
def tailBefore (path : Nat → Cell) (k : Nat) : List Cell :=
  (List.range k).map (fun j => path (k - 1 - j))

/-- Invariant of the accepted-ships list during fleet generation: every
ship carries the factory board size, occupies only in-board cells, has at
least one cell, and the list is pairwise separated. -/
def shipsOk (fac : ShipFactory) (ships : List Ship) : Prop :=
  (∀ s ∈ ships, s.boardWidth = some fac.boardWidth ∧ s.boardHeight = some fac.boardHeight)
  ∧ (∀ s ∈ ships, ∀ c ∈ s.cells, inFacRect fac c)
  ∧ (∀ s ∈ ships, s.cells ≠ [])
  ∧ shipsSeparated ships

end Battleship

namespace Battleship

/-! ## Basic lemmas about ships and cells -/

/-- Setup for the amended claim C4, horizontal case: the recorded
successful hits around the probed cell form a contiguous horizontal run
`pathH x0 y0 0 .. pathH x0 y0 (n-1)` of length at least 2 inside the
board, and no other successful hit touches the run, even diagonally. -/
def pathHSetup (p : PlayerState) (x0 y0 : Int) (n : Nat) : Prop :=
  2 ≤ n
  ∧ (1 ≤ x0 ∧ x0 + (n : Int) - 1 ≤ p.boardWidth ∧ 1 ≤ y0 ∧ y0 ≤ p.boardHeight)
  ∧ (∀ i, i < n → pathH x0 y0 i ∈ p.successfulHits)
  ∧ (∀ q ∈ p.successfulHits, (∀ j, j < n → q ≠ pathH x0 y0 j) →
      ∀ i, i < n → ¬ chebAdj q (pathH x0 y0 i))

/-- Setup for the amended claim C4, vertical case: the recorded
successful hits around the probed cell form a contiguous vertical run
`pathV x0 y0 0 .. pathV x0 y0 (n-1)` of length at least 2 inside the
board, and no other successful hit touches the run, even diagonally. -/
def pathVSetup (p : PlayerState) (x0 y0 : Int) (n : Nat) : Prop :=
  2 ≤ n
  ∧ (1 ≤ x0 ∧ x0 ≤ p.boardWidth ∧ 1 ≤ y0 ∧ y0 + (n : Int) - 1 ≤ p.boardHeight)
  ∧ (∀ i, i < n → pathV x0 y0 i ∈ p.successfulHits)
  ∧ (∀ q ∈ p.successfulHits, (∀ j, j < n → q ≠ pathV x0 y0 j) →
      ∀ i, i < n → ¬ chebAdj q (pathV x0 y0 i))

theorem getCellsAux_isSome_iff {xs ys xe ye : Int} :
    (getCellsAux xs ys xe ye).isSome = true ↔ (xs = xe ∨ ys = ye) := by
  unfold getCellsAux
  split
  · simp; omega
  · split
    · simp_all
    · split <;> simp_all

theorem cells_subset_rect (s : Ship) :
    ∀ c ∈ s.cells, s.xStart ≤ c.1 ∧ c.1 ≤ s.xEnd ∧ s.yStart ≤ c.2 ∧ c.2 ≤ s.yEnd := by
  intro c hc
  unfold Ship.cells getCellsAux at hc
  split at hc
  · rename_i hcond
    simp only [Option.getD_some, List.mem_singleton] at hc
    subst hc
    exact ⟨le_refl _, by omega, le_refl _, by omega⟩
  · split at hc
    · rename_i hcond hh
      rw [Option.getD_some] at hc
      obtain ⟨i, hi, rfl⟩ := List.mem_map.mp hc
      rw [List.mem_range] at hi
      refine ⟨by omega, by omega, by omega, by omega⟩
    · split at hc
      · rename_i hcond hh hv
        rw [Option.getD_some] at hc
        obtain ⟨i, hi, rfl⟩ := List.mem_map.mp hc
        rw [List.mem_range] at hi
        refine ⟨by omega, by omega, by omega, by omega⟩
      · simp at hc

theorem mkShip_fields {start stop : Cell} {v : Bool} {bw bh : Option Int} {s : Ship}
    (h : mkShip start stop v bw bh = some s) :
    s = ⟨min start.1 stop.1, min start.2 stop.2, max start.1 stop.1, max start.2 stop.2, bw, bh⟩
      ∧ (s.xStart = s.xEnd ∨ s.yStart = s.yEnd) := by
  unfold mkShip at h
  split at h
  · exact absurd h (by simp)
  · rename_i hval
    split at h
    · exact absurd h (by simp)
    · rename_i cl hcl
      cases h
      refine ⟨rfl, ?_⟩
      have hsome : (getCellsAux (min start.1 stop.1) (min start.2 stop.2)
          (max start.1 stop.1) (max start.2 stop.2)).isSome = true := by
        rw [hcl]; rfl
      exact getCellsAux_isSome_iff.mp hsome

theorem mkShip_vertical {x y : Int} {len : Int} (hlen : 1 ≤ len) (bw bh : Option Int) :
    mkShip (x, y) (x, y + len - 1) true bw bh = some ⟨x, y, x, y + len - 1, bw, bh⟩ := by
  unfold mkShip
  have h1 : min x x = x := by omega
  have h2 : max x x = x := by omega
  have h3 : min y (y + len - 1) = y := by omega
  have h4 : max y (y + len - 1) = y + len - 1 := by omega
  have hs : (getCellsAux x y x (y + len - 1)).isSome = true := by
    rw [getCellsAux_isSome_iff]; left; rfl
  simp only [h1, h2, h3, h4]
  split
  · rename_i hcon
    exact (hcon.2.2 trivial).elim
  · cases hcl : getCellsAux x y x (y + len - 1) with
    | none => rw [hcl] at hs; simp at hs
    | some l => rfl

theorem mkShip_horizontal {x y : Int} {len : Int} (hlen : 1 ≤ len) (bw bh : Option Int) :
    mkShip (x, y) (x + len - 1, y) true bw bh = some ⟨x, y, x + len - 1, y, bw, bh⟩ := by
  unfold mkShip
  have h1 : min x (x + len - 1) = x := by omega
  have h2 : max x (x + len - 1) = x + len - 1 := by omega
  have h3 : min y y = y := by omega
  have h4 : max y y = y := by omega
  have hs : (getCellsAux x y (x + len - 1) y).isSome = true := by
    rw [getCellsAux_isSome_iff]; right; rfl
  simp only [h1, h2, h3, h4]
  split
  · rename_i hcon
    exact (hcon.2.1 trivial).elim
  · cases hcl : getCellsAux x y (x + len - 1) y with
    | none => rw [hcl] at hs; simp at hs
    | some l => rfl

theorem cells_len_vertical {x ys ye : Int} {bw bh : Option Int} :
    (Ship.cells ⟨x, ys, x, ye, bw, bh⟩).length = (ye - ys + 1).toNat := by
  unfold Ship.cells getCellsAux
  dsimp only
  split
  · rename_i hc
    simp only [Option.getD_some, List.length_singleton]
    omega
  · rename_i hc
    split
    · rename_i hh
      exact absurd ⟨rfl, hh⟩ hc
    · rename_i hh
      split
      · simp
      · rename_i hv
        exact absurd rfl hv

theorem cells_len_horizontal {xs xe y : Int} {bw bh : Option Int} :
    (Ship.cells ⟨xs, y, xe, y, bw, bh⟩).length = (xe - xs + 1).toNat := by
  unfold Ship.cells getCellsAux
  dsimp only
  split
  · rename_i hc
    simp only [Option.getD_some, List.length_singleton]
    omega
  · rename_i hc
    split
    · simp
    · rename_i hh
      exact absurd rfl hh

/-! ## Claim C8 and C10: construction-time validation -/

/-- Claim C8: with validation enabled, `Ship` construction fails with
`ValueError` exactly when the two endpoints lie neither on the same row
nor on the same column; equal endpoints (a single-cell ship) are both
horizontal and vertical and are accepted. -/
theorem ship_validation_straightness (start stop : Cell) (bw bh : Option Int) :
    (mkShip start stop true bw bh = none ↔ (start.1 ≠ stop.1 ∧ start.2 ≠ stop.2))
      ∧ (mkShip start start true bw bh).isSome = true := by
  constructor
  · constructor
    · intro h
      unfold mkShip at h
      split at h
      · rename_i hcon
        exact ⟨fun he => hcon.2.2 (by omega), fun he => hcon.2.1 (by omega)⟩
      · rename_i hcon
        have hstraight : min start.1 stop.1 = max start.1 stop.1 ∨
            min start.2 stop.2 = max start.2 stop.2 := by
          by_contra hno
          push_neg at hno
          exact hcon ⟨rfl, hno.2, hno.1⟩
        have hsome : (getCellsAux (min start.1 stop.1) (min start.2 stop.2)
            (max start.1 stop.1) (max start.2 stop.2)).isSome = true :=
          getCellsAux_isSome_iff.mpr hstraight
        cases hcl : getCellsAux (min start.1 stop.1) (min start.2 stop.2)
            (max start.1 stop.1) (max start.2 stop.2) with
        | none => rw [hcl] at hsome; simp at hsome
        | some l => rw [hcl] at h; simp at h
    · rintro ⟨h1, h2⟩
      unfold mkShip
      rw [if_pos ⟨rfl, by omega, by omega⟩]
  · unfold mkShip
    have hcon : ¬(true = true ∧ ¬(min start.2 start.2 = max start.2 start.2)
        ∧ ¬(min start.1 start.1 = max start.1 start.1)) := by
      intro hcon
      exact hcon.2.1 (by omega)
    rw [if_neg hcon]
    have hsome : (getCellsAux (min start.1 start.1) (min start.2 start.2)
        (max start.1 start.1) (max start.2 start.2)).isSome = true :=
      getCellsAux_isSome_iff.mpr (Or.inl (by omega))
    cases hcl : getCellsAux (min start.1 start.1) (min start.2 start.2)
        (max start.1 start.1) (max start.2 start.2) with
    | none => rw [hcl] at hsome; simp at hsome
    | some l => simp

/-- Claim C10: with endpoints on neither a common row nor a common column,
construction fails even with validation disabled, because `get_cells`
itself raises during `__init__`; no diagonal `Ship` object can exist. -/
theorem ship_diagonal_never_constructed (start stop : Cell) (validate : Bool)
    (bw bh : Option Int) (h1 : start.1 ≠ stop.1) (h2 : start.2 ≠ stop.2) :
    mkShip start stop validate bw bh = none := by
  unfold mkShip
  split
  · rfl
  · have hcells : getCellsAux (min start.1 stop.1) (min start.2 stop.2)
        (max start.1 stop.1) (max start.2 stop.2) = none := by
      unfold getCellsAux
      rw [if_neg (by omega), if_neg (by omega), if_neg (by omega)]
    rw [hcells]

/-- Witness for C10 at the concrete diagonal endpoints (1,1)-(2,3). -/
theorem ship_diagonal_never_constructed_witness :
    (1 : Int) ≠ 2 ∧ (1 : Int) ≠ 3 ∧ mkShip (1, 1) (2, 3) false none none = none :=
  ⟨by decide, by decide,
    ship_diagonal_never_constructed (1, 1) (2, 3) false none none (by decide) (by decide)⟩

/-! ## Claim C2: damage is a set-level operation -/

theorem damageRun_eq (s : Ship) (attacks : List Cell) :
    ∀ damaged, damageRun s damaged attacks =
      damaged ∪ s.cells.toFinset.filter (fun c => c ∈ attacks) := by
  induction attacks with
  | nil =>
    intro d
    simp [damageRun]
  | cons a t ih =>
    intro d
    have hstep : damageRun s d (a :: t) = damageRun s ((receiveDamage s d a).2) t := rfl
    rw [hstep, ih]
    unfold receiveDamage Ship.isOccupyingCell
    by_cases hmem : a ∈ s.cells
    · rw [if_pos (by simpa using hmem)]
      ext x
      simp only [Finset.mem_union, Finset.mem_insert, Finset.mem_filter, List.mem_toFinset,
        List.mem_cons]
      constructor
      · rintro (⟨rfl | hx⟩ | ⟨hx1, hx2⟩)
        · exact Or.inr ⟨hmem, Or.inl rfl⟩
        · exact Or.inl hx
        · exact Or.inr ⟨hx1, Or.inr hx2⟩
      · rintro (hx | ⟨hx1, rfl | hx2⟩)
        · exact Or.inl (Or.inr hx)
        · exact Or.inl (Or.inl rfl)
        · exact Or.inr ⟨hx1, hx2⟩
    · rw [if_neg (by simpa using hmem)]
      ext x
      simp only [Finset.mem_union, Finset.mem_filter, List.mem_toFinset, List.mem_cons]
      constructor
      · rintro (hx | ⟨hx1, hx2⟩)
        · exact Or.inl hx
        · exact Or.inr ⟨hx1, Or.inr hx2⟩
      · rintro (hx | ⟨hx1, rfl | hx2⟩)
        · exact Or.inl hx
        · exact absurd hx1 hmem
        · exact Or.inr ⟨hx1, hx2⟩

/-- Claim C2: for a validated ship, the damage state after any finite
sequence of `receive_damage` calls depends only on the set of attacked
cells; `has_sunk` holds iff every occupied cell was attacked; re-attacking
an already damaged occupied cell returns a hit and leaves the damaged-cell
count unchanged; attacking an unoccupied cell returns a miss and changes
nothing. -/
theorem receive_damage_set_semantics (start stop : Cell) (bw bh : Option Int) (ship : Ship)
    (hship : mkShip start stop true bw bh = some ship) (attacks : List Cell) :
    (damageRun ship ∅ attacks = ship.cells.toFinset.filter (fun c => c ∈ attacks))
    ∧ (hasSunk ship (damageRun ship ∅ attacks) = true ↔ ∀ c ∈ ship.cells, c ∈ attacks)
    ∧ (∀ damaged c, c ∈ ship.cells → c ∈ damaged →
        receiveDamage ship damaged c = (true, damaged)
        ∧ countDamagedCells (receiveDamage ship damaged c).2 = countDamagedCells damaged)
    ∧ (∀ damaged c, c ∉ ship.cells → receiveDamage ship damaged c = (false, damaged)) := by
  have hrun : damageRun ship ∅ attacks = ship.cells.toFinset.filter (fun c => c ∈ attacks) := by
    rw [damageRun_eq]
    simp
  refine ⟨hrun, ?_, ?_, ?_⟩
  · rw [hrun]
    unfold hasSunk
    rw [decide_eq_true_iff]
    constructor
    · intro hfil c hc
      have : c ∈ ship.cells.toFinset.filter (fun c => c ∈ attacks) := by
        rw [hfil]
        simpa using hc
      exact (Finset.mem_filter.mp this).2
    · intro hall
      apply Finset.filter_eq_self.mpr
      intro c hc
      exact hall c (by simpa using hc)
  · intro damaged c hc hd
    unfold receiveDamage Ship.isOccupyingCell
    rw [if_pos (by simpa using hc)]
    rw [Finset.insert_eq_self.mpr hd]
    exact ⟨rfl, rfl⟩
  · intro damaged c hc
    unfold receiveDamage Ship.isOccupyingCell
    rw [if_neg (by simpa using hc)]

/-- Witness for C2 at the ship (3,3)-(5,3) and the attack list
[(3,3),(4,3)]. -/
theorem receive_damage_set_semantics_witness :
    mkShip (3, 3) (5, 3) true none none = some ⟨3, 3, 5, 3, none, none⟩
    ∧ ((damageRun ⟨3, 3, 5, 3, none, none⟩ ∅ [(3, 3), (4, 3)] =
          (Ship.cells ⟨3, 3, 5, 3, none, none⟩).toFinset.filter
            (fun c => c ∈ [((3 : Int), (3 : Int)), (4, 3)]))
      ∧ (hasSunk ⟨3, 3, 5, 3, none, none⟩
            (damageRun ⟨3, 3, 5, 3, none, none⟩ ∅ [(3, 3), (4, 3)]) = true
          ↔ ∀ c ∈ Ship.cells ⟨3, 3, 5, 3, none, none⟩, c ∈ [((3 : Int), (3 : Int)), (4, 3)])
      ∧ (∀ damaged c, c ∈ Ship.cells ⟨3, 3, 5, 3, none, none⟩ → c ∈ damaged →
          receiveDamage ⟨3, 3, 5, 3, none, none⟩ damaged c = (true, damaged)
          ∧ countDamagedCells (receiveDamage ⟨3, 3, 5, 3, none, none⟩ damaged c).2 =
              countDamagedCells damaged)
      ∧ (∀ damaged c, c ∉ Ship.cells ⟨3, 3, 5, 3, none, none⟩ →
          receiveDamage ⟨3, 3, 5, 3, none, none⟩ damaged c = (false, damaged))) :=
  ⟨by decide, receive_damage_set_semantics (3, 3) (5, 3) none none _ (by decide) [(3, 3), (4, 3)]⟩

/-! ## Claim C6: nearness is 8-directional adjacency excluding identity -/

theorem mem_ite_nil {p : Prop} [Decidable p] {x c : Cell} :
    (c ∈ (if p then [x] else [])) ↔ (p ∧ c = x) := by
  split
  · rename_i hp
    simp [hp]
  · rename_i hp
    simp [hp]

theorem chebAdj_comm {a b : Cell} : chebAdj a b ↔ chebAdj b a := by
  unfold chebAdj
  omega

theorem mem_shipNeighbours_iff (s : Ship) (a c : Cell)
    (ha : inShipBounds s a) (hc1 : 1 ≤ c.1) (hc2 : 1 ≤ c.2) :
    c ∈ s.getNeighbours a ↔ (c ≠ a ∧ chebAdj c a) := by
  obtain ⟨ha1, ha2, ha3, ha4⟩ := ha
  obtain ⟨c1, c2⟩ := c
  obtain ⟨a1, a2⟩ := a
  simp only at ha1 ha2 ha3 ha4 hc1 hc2
  constructor
  · intro h
    simp only [Ship.getNeighbours, List.mem_append, mem_ite_nil, Bool.and_eq_true,
      decide_eq_true_eq, Prod.mk.injEq, ha2, ha4, true_and, and_true] at h
    unfold chebAdj
    simp only [ne_eq, Prod.mk.injEq, not_and]
    omega
  · intro ⟨hne, hadj⟩
    simp only [ne_eq, Prod.mk.injEq, not_and] at hne
    unfold chebAdj at hadj
    simp only at hadj
    simp only [Ship.getNeighbours, List.mem_append, mem_ite_nil, Bool.and_eq_true,
      decide_eq_true_eq, Prod.mk.injEq, ha2, ha4, true_and, and_true]
    omega

theorem isNearCell_iff (s : Ship) (hs : ∀ a ∈ s.cells, inShipBounds s a)
    (c : Cell) (hc1 : 1 ≤ c.1) (hc2 : 1 ≤ c.2) :
    s.isNearCell c = true ↔ ∃ a ∈ s.cells, a ≠ c ∧ chebAdj a c := by
  unfold Ship.isNearCell
  rw [List.any_eq_true]
  constructor
  · rintro ⟨a, hmem, hnb⟩
    rw [decide_eq_true_eq] at hnb
    have := (mem_shipNeighbours_iff s a c (hs a hmem) hc1 hc2).mp hnb
    exact ⟨a, hmem, fun h => this.1 h.symm, chebAdj_comm.mp this.2⟩
  · rintro ⟨a, hmem, hne, hadj⟩
    refine ⟨a, hmem, ?_⟩
    rw [decide_eq_true_eq]
    exact (mem_shipNeighbours_iff s a c (hs a hmem) hc1 hc2).mpr
      ⟨fun h => hne h.symm, chebAdj_comm.mp hadj⟩

/-- Claim C6: for a ship whose cells lie within its board bounds,
`is_near_cell` at an in-board cell holds iff some occupied cell distinct
from it differs by at most one along each axis, and `is_near_ship` holds
iff some cell of the other ship is near this ship in that sense. -/
theorem ship_nearness_characterisation (s : Ship)
    (hs : ∀ a ∈ s.cells, inShipBounds s a) :
    (∀ c : Cell, inShipBounds s c →
      (s.isNearCell c = true ↔ ∃ a ∈ s.cells, a ≠ c ∧ chebAdj a c))
    ∧ (∀ other : Ship, (∀ b ∈ other.cells, inShipBounds s b) →
      (s.isNearShip other = true ↔ ∃ b ∈ other.cells, ∃ a ∈ s.cells, a ≠ b ∧ chebAdj a b)) := by
  constructor
  · intro c hc
    exact isNearCell_iff s hs c hc.1 hc.2.2.1
  · intro other hother
    unfold Ship.isNearShip
    rw [List.any_eq_true]
    constructor
    · rintro ⟨b, hmem, hnear⟩
      have hb := hother b hmem
      exact ⟨b, hmem, (isNearCell_iff s hs b hb.1 hb.2.2.1).mp hnear⟩
    · rintro ⟨b, hmem, hex⟩
      refine ⟨b, hmem, ?_⟩
      have hb := hother b hmem
      exact (isNearCell_iff s hs b hb.1 hb.2.2.1).mpr hex

/-- Witness for C6 at the ship (3,3)-(5,3) on a 10 x 10 board. -/
theorem ship_nearness_characterisation_witness :
    (∀ a ∈ Ship.cells ⟨3, 3, 5, 3, some 10, some 10⟩,
        inShipBounds ⟨3, 3, 5, 3, some 10, some 10⟩ a)
    ∧ ((∀ c : Cell, inShipBounds ⟨3, 3, 5, 3, some 10, some 10⟩ c →
        (Ship.isNearCell ⟨3, 3, 5, 3, some 10, some 10⟩ c = true ↔
          ∃ a ∈ Ship.cells ⟨3, 3, 5, 3, some 10, some 10⟩, a ≠ c ∧ chebAdj a c))
      ∧ (∀ other : Ship,
          (∀ b ∈ other.cells, inShipBounds ⟨3, 3, 5, 3, some 10, some 10⟩ b) →
          (Ship.isNearShip ⟨3, 3, 5, 3, some 10, some 10⟩ other = true ↔
            ∃ b ∈ other.cells, ∃ a ∈ Ship.cells ⟨3, 3, 5, 3, some 10, some 10⟩,
              a ≠ b ∧ chebAdj a b))) :=
  ⟨by decide, ship_nearness_characterisation ⟨3, 3, 5, 3, some 10, some 10⟩ (by decide)⟩

/-! ## Claim C9: Board construction (spec-modelled) -/

theorem chebAdj_refl (a : Cell) : chebAdj a a := by
  unfold chebAdj
  omega

theorem pairsTooClose_iff (ships : List Ship) :
    pairsTooClose ships = true ↔ fleetViolation ships := by
  induction ships with
  | nil =>
    unfold pairsTooClose fleetViolation
    simp
  | cons x rest ih =>
    unfold pairsTooClose fleetViolation
    rw [Bool.or_eq_true, ih]
    unfold fleetViolation
    constructor
    · rintro (hx | ⟨s, t, hsub, hcells⟩)
      · simp only [List.any_eq_true, decide_eq_true_eq] at hx
        obtain ⟨t, ht, a, ha, b, hb, hadj⟩ := hx
        exact ⟨x, t, by
          rw [List.sublist_cons_iff]
          exact Or.inr ⟨[t], rfl, List.singleton_sublist.mpr ht⟩,
          a, ha, b, hb, Or.inr hadj⟩
      · exact ⟨s, t, hsub.trans (List.sublist_cons_self x rest), hcells⟩
    · rintro ⟨s, t, hsub, a, ha, b, hb, hadj⟩
      have hadj2 : chebAdj a b := by
        rcases hadj with rfl | hadj
        · exact chebAdj_refl a
        · exact hadj
      rw [List.sublist_cons_iff] at hsub
      rcases hsub with hsub | ⟨r, hr, hrs⟩
      · exact Or.inr ⟨s, t, hsub, a, ha, b, hb, hadj⟩
      · left
        have hsx : s = x := by
          injection hr
        have hrt : r = [t] := by
          injection hr with h1 h2
          exact h2.symm
        subst hsx
        subst hrt
        simp only [List.any_eq_true, decide_eq_true_eq]
        exact ⟨t, List.singleton_sublist.mp hrs, a, ha, b, hb, hadj2⟩

/-- Claim C9 (modelled from the spec, `battleship/board.py` being absent
from the sources): `Board` construction fails with a bounds violation iff
some ship cell lies outside the grid, fails with an adjacency/overlap
violation iff the fleet is in bounds but two ships overlap or are
mutually near, and otherwise returns the fully constructed board; an
error never yields any (partial) board. -/
theorem board_construction_validation (ships : List Ship) (w h : Int) :
    (mkBoard ships w h = .error .outOfBounds ↔
      ∃ s ∈ ships, ∃ c ∈ s.cells, ¬(1 ≤ c.1 ∧ c.1 ≤ w ∧ 1 ≤ c.2 ∧ c.2 ≤ h))
    ∧ (mkBoard ships w h = .error .shipsTooClose ↔
      ((∀ s ∈ ships, ∀ c ∈ s.cells, 1 ≤ c.1 ∧ c.1 ≤ w ∧ 1 ≤ c.2 ∧ c.2 ≤ h)
        ∧ fleetViolation ships))
    ∧ (mkBoard ships w h = .ok ⟨ships, w, h⟩ ↔
      ((∀ s ∈ ships, ∀ c ∈ s.cells, 1 ≤ c.1 ∧ c.1 ≤ w ∧ 1 ≤ c.2 ∧ c.2 ≤ h)
        ∧ ¬ fleetViolation ships)) := by
  have hbnd : (ships.all (fun s => s.cells.all (inRectBounds w h)) = true) ↔
      (∀ s ∈ ships, ∀ c ∈ s.cells, 1 ≤ c.1 ∧ c.1 ≤ w ∧ 1 ≤ c.2 ∧ c.2 ≤ h) := by
    simp only [List.all_eq_true, inRectBounds, decide_eq_true_eq]
  unfold mkBoard
  split
  · rename_i hin
    have hex_no : ¬ ∃ s ∈ ships, ∃ c ∈ s.cells, ¬(1 ≤ c.1 ∧ c.1 ≤ w ∧ 1 ≤ c.2 ∧ c.2 ≤ h) :=
      fun ⟨s, hs, c, hc, hnb⟩ => hnb ((hbnd.mp hin) s hs c hc)
    split
    · rename_i hclose
      refine ⟨iff_of_false (by simp) hex_no, iff_of_true rfl ?_, iff_of_false (by simp) ?_⟩
      · exact ⟨hbnd.mp hin, (pairsTooClose_iff ships).mp hclose⟩
      · exact fun ⟨_, hno⟩ => hno ((pairsTooClose_iff ships).mp hclose)
    · rename_i hclose
      refine ⟨iff_of_false (by simp) hex_no, iff_of_false (by simp) ?_, iff_of_true rfl ?_⟩
      · exact fun ⟨_, hfv⟩ => hclose ((pairsTooClose_iff ships).mpr hfv)
      · exact ⟨hbnd.mp hin, fun hfv => hclose ((pairsTooClose_iff ships).mpr hfv)⟩
  · rename_i hin
    have hex : ∃ s ∈ ships, ∃ c ∈ s.cells, ¬(1 ≤ c.1 ∧ c.1 ≤ w ∧ 1 ≤ c.2 ∧ c.2 ≤ h) := by
      by_contra hno
      push_neg at hno
      exact hin (hbnd.mpr fun s hs c hc => hno s hs c hc)
    refine ⟨iff_of_true rfl hex, iff_of_false (by simp) ?_, iff_of_false (by simp) ?_⟩
    · exact fun ⟨hall, _⟩ => hin (hbnd.mpr hall)
    · exact fun ⟨hall, _⟩ => hin (hbnd.mpr hall)

/-! ## Claim C7: bounded per-ship retries, full restart on exhaustion -/

theorem placeLoop_spec (fac : ShipFactory) (shipLen : Int) (ships : List Ship) :
    ∀ budget toTest attempts rnd out,
      placeLoop fac shipLen ships toTest attempts budget rnd = some out →
      (match out with
       | .accept _ a _ => attempts ≤ a ∧ a ≤ attempts + budget
       | .restart a _ => a = attempts + budget + 1) := by
  intro budget
  induction budget with
  | zero =>
    intro toTest attempts rnd out h
    unfold placeLoop at h
    split at h
    · split at h
      · rename_i s
        cases h
        exact ⟨le_refl _, by omega⟩
      · exact absurd h (by simp)
    · split at h
      · exact absurd h (by simp)
      · split at h
        · exact absurd h (by simp)
        · cases h
          omega
  | succ b ih =>
    intro toTest attempts rnd out h
    unfold placeLoop at h
    split at h
    · split at h
      · rename_i s
        cases h
        exact ⟨le_refl _, by omega⟩
      · exact absurd h (by simp)
    · split at h
      · exact absurd h (by simp)
      · split at h
        · exact absurd h (by simp)
        · have := ih _ _ _ _ h
          revert this
          match out with
          | .accept s a r => intro hh; exact ⟨by omega, by omega⟩
          | .restart a r => intro hh; omega

/-- Claim C7: the inner placement loop of `generate_ships` performs at
most 1001 candidate generations for one ship (the cap `max_iterations`
is 1000); a ship is accepted within 1000 attempts, the 1001st attempt
triggers a restart, the restart aborts the pass discarding every ship
placed so far, and a restarted `generate_ships` run is re-entered from
scratch with its complete fleet returned as the result. -/
theorem placement_retry_cap_and_restart (fac : ShipFactory) (shipLen : Int)
    (ships : List Ship) (toTest : Option Ship) (rnd : List Nat) (out : PlaceOut)
    (hout : placeLoop fac shipLen ships toTest 0 1000 rnd = some out) :
    (∀ ship a rnd', out = .accept ship a rnd' → a ≤ 1000)
    ∧ (∀ a rnd', out = .restart a rnd' → a = 1001)
    ∧ (∀ len2 rest ships2 toTest2 rnd2 a2 rnd2',
        placeLoop fac len2 ships2 toTest2 0 1000 rnd2 = some (.restart a2 rnd2') →
        genList fac (len2 :: rest) ships2 toTest2 rnd2 = .restart rnd2')
    ∧ (∀ fuel rnd0, genRun fac (fuel + 1) rnd0 =
        match genList fac (flatLengths fac) [] none rnd0 with
        | .done ships' rnd' => some (ships', rnd')
        | .restart rnd' => genRun fac fuel rnd'
        | .fail => none) := by
  have hspec := placeLoop_spec fac shipLen ships 1000 toTest 0 rnd out hout
  refine ⟨?_, ?_, ?_, ?_⟩
  · intro ship a rnd' heq
    subst heq
    exact hspec.2
  · intro a rnd' heq
    subst heq
    omega
  · intro len2 rest ships2 toTest2 rnd2 a2 rnd2' hpl
    unfold genList
    rw [hpl]
  · intro fuel rnd0
    rfl

/-- Witness for C7: on a 10 x 10 board with one length-1 ship requested
and an all-zero oracle, the first candidate is accepted after exactly one
generation attempt. -/
theorem placement_retry_cap_and_restart_witness :
    placeLoop ⟨10, 10, [(1, 1)]⟩ 1 [] none 0 1000 [0, 0, 0] =
        some (.accept ⟨1, 1, 1, 1, some 10, some 10⟩ 1 [])
    ∧ ((∀ ship a rnd',
          (PlaceOut.accept ⟨1, 1, 1, 1, some 10, some 10⟩ 1 [] : PlaceOut) =
            .accept ship a rnd' → a ≤ 1000)
      ∧ (∀ a rnd',
          (PlaceOut.accept ⟨1, 1, 1, 1, some 10, some 10⟩ 1 [] : PlaceOut) =
            .restart a rnd' → a = 1001)
      ∧ (∀ len2 rest ships2 toTest2 rnd2 a2 rnd2',
          placeLoop ⟨10, 10, [(1, 1)]⟩ len2 ships2 toTest2 0 1000 rnd2 =
              some (.restart a2 rnd2') →
          genList ⟨10, 10, [(1, 1)]⟩ (len2 :: rest) ships2 toTest2 rnd2 = .restart rnd2')
      ∧ (∀ fuel rnd0, genRun ⟨10, 10, [(1, 1)]⟩ (fuel + 1) rnd0 =
          match genList ⟨10, 10, [(1, 1)]⟩ (flatLengths ⟨10, 10, [(1, 1)]⟩) [] none rnd0 with
          | .done ships' rnd' => some (ships', rnd')
          | .restart rnd' => genRun ⟨10, 10, [(1, 1)]⟩ fuel rnd'
          | .fail => none)) :=
  ⟨by decide,
    placement_retry_cap_and_restart ⟨10, 10, [(1, 1)]⟩ 1 [] none [0, 0, 0]
      (.accept ⟨1, 1, 1, 1, some 10, some 10⟩ 1 []) (by decide)⟩

/-! ## Claim C1: generated fleets are legal -/

theorem checkCoordinates_unpack {fac : ShipFactory} {ships : List Ship} {ship : Ship}
    (h : checkCoordinates fac ships (some ship) = true) :
    isShipInBound fac ship = true ∧
      ∀ t ∈ ships, areOverlapping t ship = false ∧ t.isNearShip ship = false := by
  unfold checkCoordinates at h
  rw [Bool.and_eq_true, List.all_eq_true] at h
  refine ⟨h.1, fun t ht => ?_⟩
  have := h.2 t ht
  rw [Bool.and_eq_true, Bool.not_eq_true', Bool.not_eq_true'] at this
  exact this

theorem isShipInBound_cells {fac : ShipFactory} {ship : Ship}
    (h : isShipInBound fac ship = true) :
    ∀ c ∈ ship.cells, inFacRect fac c := by
  intro c hc
  unfold isShipInBound at h
  rw [decide_eq_true_eq] at h
  have hrect := cells_subset_rect ship c hc
  unfold inFacRect
  omega

theorem genCoords_cases {fac : ShipFactory} {len : Int} {rnd rnd' : List Nat} {st en : Cell}
    (h : generateRandomCoordinates fac len rnd = some ((st, en), rnd')) :
    (∃ x y, st = (x, y) ∧ en = (x, y + len - 1)) ∨
      (∃ x y, st = (x, y) ∧ en = (x + len - 1, y)) := by
  unfold generateRandomCoordinates at h
  split at h
  · exact absurd h (by simp)
  · split at h
    · split at h
      · exact absurd h (by simp)
      · split at h
        · exact absurd h (by simp)
        · simp only [Option.some.injEq, Prod.mk.injEq] at h
          obtain ⟨⟨hst, hen⟩, hr⟩ := h
          subst hst
          subst hen
          exact Or.inl ⟨_, _, rfl, rfl⟩
    · split at h
      · exact absurd h (by simp)
      · split at h
        · exact absurd h (by simp)
        · simp only [Option.some.injEq, Prod.mk.injEq] at h
          obtain ⟨⟨hst, hen⟩, hr⟩ := h
          subst hst
          subst hen
          exact Or.inr ⟨_, _, rfl, rfl⟩

theorem placeLoop_accept_origin (fac : ShipFactory) (shipLen : Int) (ships : List Ship) :
    ∀ budget toTest attempts rnd ship a rnd',
      placeLoop fac shipLen ships toTest attempts budget rnd = some (.accept ship a rnd') →
      checkCoordinates fac ships (some ship) = true ∧
      (toTest = some ship ∨
        ∃ st en rnd0 rnd1,
          generateRandomCoordinates fac shipLen rnd0 = some ((st, en), rnd1) ∧
          mkShip st en true (some fac.boardWidth) (some fac.boardHeight) = some ship) := by
  intro budget
  induction budget with
  | zero =>
    intro toTest attempts rnd ship a rnd' h
    unfold placeLoop at h
    split at h
    · rename_i hcheck
      split at h
      · rename_i s
        simp only [Option.some.injEq, PlaceOut.accept.injEq] at h
        obtain ⟨rfl, rfl, rfl⟩ := h
        exact ⟨hcheck, Or.inl rfl⟩
      · exact absurd h (by simp)
    · split at h
      · exact absurd h (by simp)
      · split at h
        · exact absurd h (by simp)
        · exact absurd h (by simp)
  | succ b ih =>
    intro toTest attempts rnd ship a rnd' h
    unfold placeLoop at h
    split at h
    · rename_i hcheck
      split at h
      · rename_i s
        simp only [Option.some.injEq, PlaceOut.accept.injEq] at h
        obtain ⟨rfl, rfl, rfl⟩ := h
        exact ⟨hcheck, Or.inl rfl⟩
      · exact absurd h (by simp)
    · split at h
      · exact absurd h (by simp)
      · rename_i hgen
        split at h
        · exact absurd h (by simp)
        · rename_i hmk
          have := ih _ _ _ _ _ _ h
          refine ⟨this.1, ?_⟩
          rcases this.2 with heq | horig
          · injection heq with heq
            subst heq
            exact Or.inr ⟨_, _, _, _, hgen, hmk⟩
          · exact Or.inr horig

theorem sep_of_check {fac : ShipFactory} {t ship : Ship}
    (htw : t.boardWidth = some fac.boardWidth) (hth : t.boardHeight = some fac.boardHeight)
    (htc : ∀ c ∈ t.cells, inFacRect fac c)
    (hsc : ∀ c ∈ ship.cells, inFacRect fac c)
    (hov : areOverlapping t ship = false)
    (hnear : t.isNearShip ship = false) :
    (∀ a ∈ t.cells, a ∉ ship.cells) ∧ (∀ a ∈ t.cells, ∀ b ∈ ship.cells, ¬ chebAdj a b) := by
  have hdis : ∀ a ∈ t.cells, a ∉ ship.cells := by
    intro a ha hb
    unfold areOverlapping at hov
    rw [List.any_eq_false] at hov
    have := hov a ha
    simp only [decide_eq_true_eq] at this
    exact this hb
  refine ⟨hdis, fun a ha b hb hadj => ?_⟩
  have htb : ∀ c ∈ t.cells, inShipBounds t c := by
    intro c hc
    have := htc c hc
    unfold inFacRect at this
    unfold inShipBounds
    rw [htw, hth]
    unfold leBound
    simp only [decide_eq_true_eq]
    exact ⟨this.1, this.2.1, this.2.2.1, this.2.2.2⟩
  have hb1 : 1 ≤ b.1 := (hsc b hb).1
  have hb2 : 1 ≤ b.2 := (hsc b hb).2.2.1
  by_cases heq : a = b
  · exact hdis a ha (heq ▸ hb)
  · have : t.isNearCell b = true :=
      (isNearCell_iff t htb b hb1 hb2).mpr ⟨a, ha, heq, hadj⟩
    unfold Ship.isNearShip at hnear
    rw [List.any_eq_false] at hnear
    have hfalse := hnear b hb
    rw [this] at hfalse
    exact absurd rfl hfalse

theorem genList_sound (fac : ShipFactory) :
    ∀ pending ships toTest rnd out rnd'',
      (∀ l ∈ pending, (1 : Int) ≤ l) →
      shipsOk fac ships →
      (toTest = none ∨ ∃ s, toTest = some s ∧ s ∈ ships) →
      genList fac pending ships toTest rnd = .done out rnd'' →
      shipsOk fac out ∧
        out.map (fun s => (s.cells.length : Int)) =
          ships.map (fun s => (s.cells.length : Int)) ++ pending := by
  intro pending
  induction pending with
  | nil =>
    intro ships toTest rnd out rnd'' hlen hok htt h
    unfold genList at h
    cases h
    exact ⟨hok, by simp⟩
  | cons len rest ih =>
    intro ships toTest rnd out rnd'' hlen hok htt h
    unfold genList at h
    split at h
    · exact absurd h (by simp)
    · rename_i ship na rnd1 hpl
      -- the accepted ship passed check_coordinates and was freshly generated
      have horigin := placeLoop_accept_origin fac len ships 1000 toTest 0 rnd ship na rnd1 hpl
      obtain ⟨hcheck, hcase⟩ := horigin
      obtain ⟨hbound, hpair⟩ := checkCoordinates_unpack hcheck
      have hshipcells : ∀ c ∈ ship.cells, inFacRect fac c := isShipInBound_cells hbound
      have hfresh : ∃ st en rnd0 rnd2,
          generateRandomCoordinates fac len rnd0 = some ((st, en), rnd2) ∧
          mkShip st en true (some fac.boardWidth) (some fac.boardHeight) = some ship := by
        rcases hcase with heq | horig
        · -- the stale ship_to_test is in ships and overlaps itself: impossible
          exfalso
          rcases htt with htt | ⟨s, hts, hmem⟩
          · rw [htt] at heq
            exact Option.noConfusion heq
          · rw [hts] at heq
            injection heq with heq
            subst heq
            have hself := (hpair s hmem).1
            unfold areOverlapping at hself
            rw [List.any_eq_false] at hself
            have hne := hok.2.2.1 s hmem
            cases hcl : s.cells with
            | nil => exact hne hcl
            | cons c cs =>
              have := hself c (by rw [hcl]; exact List.mem_cons_self c cs)
              simp only [decide_eq_true_eq] at this
              exact this (by rw [hcl]; exact List.mem_cons_self c cs)
        · exact horig
      obtain ⟨st, en, rnd0, rnd2, hgen, hmk⟩ := hfresh
      have hlen1 : (1 : Int) ≤ len := hlen len (List.mem_cons_self len rest)
      -- shape of the generated ship
      have hshape : (∃ x y, ship = ⟨x, y, x, y + len - 1, some fac.boardWidth,
            some fac.boardHeight⟩)
          ∨ (∃ x y, ship = ⟨x, y, x + len - 1, y, some fac.boardWidth,
            some fac.boardHeight⟩) := by
        rcases genCoords_cases hgen with ⟨x, y, rfl, rfl⟩ | ⟨x, y, rfl, rfl⟩
        · left
          refine ⟨x, y, ?_⟩
          have := mkShip_vertical (x := x) (y := y) hlen1
            (some fac.boardWidth) (some fac.boardHeight)
          rw [this] at hmk
          injection hmk with hmk
          exact hmk.symm
        · right
          refine ⟨x, y, ?_⟩
          have := mkShip_horizontal (x := x) (y := y) hlen1
            (some fac.boardWidth) (some fac.boardHeight)
          rw [this] at hmk
          injection hmk with hmk
          exact hmk.symm
      have hships_len : (ship.cells.length : Int) = len := by
        rcases hshape with ⟨x, y, rfl⟩ | ⟨x, y, rfl⟩
        · rw [cells_len_vertical]
          omega
        · rw [cells_len_horizontal]
          omega
      have hbw : ship.boardWidth = some fac.boardWidth ∧
          ship.boardHeight = some fac.boardHeight := by
        rcases hshape with ⟨x, y, rfl⟩ | ⟨x, y, rfl⟩ <;> exact ⟨rfl, rfl⟩
      have hnonempty : ship.cells ≠ [] := by
        intro hnil
        rw [hnil] at hships_len
        simp at hships_len
        omega
      -- pairwise separation of the new ship against every accepted ship
      have hsep : ∀ t ∈ ships, (∀ a ∈ t.cells, a ∉ ship.cells)
          ∧ (∀ a ∈ t.cells, ∀ b ∈ ship.cells, ¬ chebAdj a b) := by
        intro t ht
        exact sep_of_check (hok.1 t ht).1 (hok.1 t ht).2 (hok.2.1 t ht) hshipcells
          (hpair t ht).1 (hpair t ht).2
      have hok' : shipsOk fac (ships ++ [ship]) := by
        refine ⟨?_, ?_, ?_, ?_⟩
        · intro s hs
          rcases List.mem_append.mp hs with hs | hs
          · exact hok.1 s hs
          · rw [List.mem_singleton.mp hs]
            exact hbw
        · intro s hs
          rcases List.mem_append.mp hs with hs | hs
          · exact hok.2.1 s hs
          · rw [List.mem_singleton.mp hs]
            exact hshipcells
        · intro s hs
          rcases List.mem_append.mp hs with hs | hs
          · exact hok.2.2.1 s hs
          · rw [List.mem_singleton.mp hs]
            exact hnonempty
        · unfold shipsSeparated
          rw [List.pairwise_append]
          refine ⟨hok.2.2.2, List.pairwise_singleton _ _, ?_⟩
          intro t ht s hs
          rw [List.mem_singleton.mp hs]
          exact hsep t ht
      have hrec := ih (ships ++ [ship]) (some ship) rnd1 out rnd''
        (fun l hl => hlen l (List.mem_cons_of_mem len hl)) hok'
        (Or.inr ⟨ship, rfl, List.mem_append.mpr (Or.inr (List.mem_singleton.mpr rfl))⟩) h
      refine ⟨hrec.1, ?_⟩
      rw [hrec.2, List.map_append]
      simp [hships_len]
    · exact absurd h (by simp)

/-- Claim C1: every fleet returned by `generate_ships` (for positive
requested lengths, as any geometrically feasible request has) contains
exactly the requested number of ships of each requested length, in
request order; every cell of every ship lies within the board; and
distinct ships neither share a cell nor come within one grid-step
(including diagonals) of one another. -/
theorem generate_ships_fleet_legal (fac : ShipFactory) (fuel : Nat) (rnd : List Nat)
    (ships : List Ship) (rnd' : List Nat)
    (hlen : ∀ q ∈ fac.shipsPerLength, (1 : Int) ≤ q.1)
    (hres : genRun fac fuel rnd = some (ships, rnd')) :
    ships.map (fun s => (s.length : Int)) = flatLengths fac
    ∧ (∀ s ∈ ships, ∀ c ∈ s.cells, inFacRect fac c)
    ∧ shipsSeparated ships := by
  have hflat : ∀ l ∈ flatLengths fac, (1 : Int) ≤ l := by
    intro l hl
    unfold flatLengths at hl
    rw [List.mem_flatten] at hl
    obtain ⟨group, hg, hlg⟩ := hl
    rw [List.mem_map] at hg
    obtain ⟨q, hq, rfl⟩ := hg
    rw [List.eq_of_mem_replicate hlg]
    exact hlen q hq
  induction fuel generalizing rnd with
  | zero => exact absurd hres (by simp [genRun])
  | succ f ihf =>
    unfold genRun at hres
    split at hres
    · rename_i out rnd2 hdone
      simp only [Option.some.injEq, Prod.mk.injEq] at hres
      obtain ⟨rfl, rfl⟩ := hres
      have hsound := genList_sound fac (flatLengths fac) [] none rnd out rnd2 hflat
        ⟨by simp, by simp, by simp, List.Pairwise.nil⟩ (Or.inl rfl) hdone
      refine ⟨by simpa [Ship.length] using hsound.2, hsound.1.2.1, hsound.1.2.2.2⟩
    · exact ihf _ hres
    · exact absurd hres (by simp)

/-- Witness for C1: a 10 x 10 board with one length-1 ship requested and
oracle [0,0,0] yields the fleet [ship at (1,1)]. -/
theorem generate_ships_fleet_legal_witness :
    (∀ q ∈ (⟨10, 10, [(1, 1)]⟩ : ShipFactory).shipsPerLength, (1 : Int) ≤ q.1)
    ∧ genRun ⟨10, 10, [(1, 1)]⟩ 1 [0, 0, 0] =
        some ([⟨1, 1, 1, 1, some 10, some 10⟩], [])
    ∧ (([⟨1, 1, 1, 1, some 10, some 10⟩] : List Ship).map (fun s => (s.length : Int)) =
          flatLengths ⟨10, 10, [(1, 1)]⟩
      ∧ (∀ s ∈ ([⟨1, 1, 1, 1, some 10, some 10⟩] : List Ship),
          ∀ c ∈ s.cells, inFacRect ⟨10, 10, [(1, 1)]⟩ c)
      ∧ shipsSeparated [⟨1, 1, 1, 1, some 10, some 10⟩]) :=
  ⟨by decide, by decide,
    generate_ships_fleet_legal ⟨10, 10, [(1, 1)]⟩ 1 [0, 0, 0]
      [⟨1, 1, 1, 1, some 10, some 10⟩] [] (by decide) (by decide)⟩

/-! ## Claims C3 and C5: the targeting loop's exit conditions -/

theorem grtLoop_exit (p : PlayerState) (ffuel : Nat) (hunt : Bool) (hits : List Cell)
    (sunken : Bool) :
    ∀ fuel rnd c r, grtLoop p ffuel hunt hits sunken fuel rnd = some (c, r) →
      (c ∉ p.tracker) ∧ (isItWithinBounds p c = true)
      ∧ (sunken = true → isCloseToShip p c = false)
      ∧ (hunt = true → ∃ rc rnd1 rnd2, huntingCell p ffuel rc hits rnd1 = some (true, c, rnd2)) := by
  intro fuel
  induction fuel with
  | zero =>
    intro rnd c r h
    exact absurd h (by simp [grtLoop])
  | succ f ih =>
    intro rnd c r h
    unfold grtLoop at h
    cases hrc : getRandomCoordinates p rnd with
    | none =>
      rw [hrc] at h
      simp at h
    | some pr =>
      obtain ⟨rc, rnd1⟩ := pr
      rw [hrc] at h
      simp only [] at h
      cases hcand : (if hunt then huntingCell p ffuel rc hits rnd1 else some (true, rc, rnd1)) with
      | none =>
        rw [hcand] at h
        simp at h
      | some tri =>
        obtain ⟨isHunting, cell, rnd2⟩ := tri
        rw [hcand] at h
        simp only [] at h
        by_cases hcond : (decide (cell ∈ p.tracker)
            || (if sunken then isCloseToShip p cell else false)
            || !isHunting || !(isItWithinBounds p cell)) = true
        · rw [if_pos hcond] at h
          exact ih _ _ _ h
        · rw [if_neg hcond] at h
          simp only [Option.some.injEq, Prod.mk.injEq] at h
          obtain ⟨rfl, rfl⟩ := h
          rw [Bool.or_eq_true, Bool.or_eq_true, Bool.or_eq_true] at hcond
          push_neg at hcond
          obtain ⟨⟨⟨hA, hB⟩, hC⟩, hD⟩ := hcond
          have h1 : cell ∉ p.tracker := by simpa using hA
          have h2 : (if sunken then isCloseToShip p cell else false) = false := by
            simpa using hB
          have h3 : isHunting = true := by simpa using hC
          have h4 : isItWithinBounds p cell = true := by simpa using hD
          refine ⟨h1, h4, ?_, ?_⟩
          · intro hsun
            rw [hsun] at h2
            simpa using h2
          · intro hh
            rw [hh] at hcand
            rw [h3] at hcand
            exact ⟨rc, rnd1, rnd2, hcand⟩

theorem mem_pNeighbours_hunt {p : PlayerState} {h c : Cell}
    (hc : c ∈ pNeighbours p h true) :
    c = (h.1 + 1, h.2) ∨ c = (h.1 - 1, h.2) ∨ c = (h.1, h.2 + 1) ∨ c = (h.1, h.2 - 1) := by
  simp only [pNeighbours, List.mem_append, mem_ite_nil, if_true, List.not_mem_nil,
    or_false, List.append_nil] at hc
  tauto

/-- Claim C3: when the memory holds exactly one open hit `h`, any cell
returned by `select_target` is a 4-directional neighbour of `h`, lies
within board bounds, and was not attacked before. -/
theorem select_target_single_open_hit (p : PlayerState) (ffuel fuel : Nat) (rnd : List Nat)
    (h c : Cell) (p' : PlayerState) (r : List Nat)
    (hhunt : isThereAHunt p = some (true, [h]))
    (hsel : selectTarget p ffuel fuel rnd = some (c, p', r)) :
    (c = (h.1 + 1, h.2) ∨ c = (h.1 - 1, h.2) ∨ c = (h.1, h.2 + 1) ∨ c = (h.1, h.2 - 1))
    ∧ isItWithinBounds p c = true ∧ c ∉ p.tracker := by
  unfold selectTarget at hsel
  cases hgen : generateRandomTarget p ffuel fuel rnd with
  | none =>
    rw [hgen] at hsel
    simp at hsel
  | some pr =>
    obtain ⟨c0, rnd0⟩ := pr
    rw [hgen] at hsel
    simp only [Option.some.injEq, Prod.mk.injEq] at hsel
    obtain ⟨rfl, -, -⟩ := hsel
    unfold generateRandomTarget at hgen
    rw [hhunt] at hgen
    simp only [] at hgen
    have hexit := grtLoop_exit p ffuel true [h]
      (decide (0 < p.sunkenShips.length)) fuel rnd c0 rnd0 hgen
    obtain ⟨htr, hwb, -, hhc⟩ := hexit
    obtain ⟨rc, rnd1, rnd2, hcell⟩ := hhc rfl
    unfold huntingCell at hcell
    rw [if_neg (by simp)] at hcell
    simp only [] at hcell
    by_cases hmem : rc ∈ pNeighbours p h true
    · rw [if_pos hmem] at hcell
      simp only [Option.some.injEq, Prod.mk.injEq] at hcell
      obtain ⟨-, rfl, -⟩ := hcell
      exact ⟨mem_pNeighbours_hunt hmem, hwb, htr⟩
    · rw [if_neg hmem] at hcell
      simp only [Option.some.injEq, Prod.mk.injEq] at hcell
      exact absurd hcell.1 (by simp)

/-- Witness for C3: one open hit at (5,5) on a 10 x 10 board; the oracle
[5,4] proposes (6,5), which is accepted. -/
theorem select_target_single_open_hit_witness :
    isThereAHunt ⟨10, 10, {(5, 5)}, [], [(5, 5)]⟩ = some (true, [(5, 5)])
    ∧ selectTarget ⟨10, 10, {(5, 5)}, [], [(5, 5)]⟩ 5 3 [5, 4] =
        some ((6, 5), ⟨10, 10, insert (6, 5) {(5, 5)}, [], [(5, 5)]⟩, [])
    ∧ (((6, 5) : Cell) = ((5 : Int) + 1, (5 : Int)) ∨ ((6, 5) : Cell) = (5 - 1, 5)
        ∨ ((6, 5) : Cell) = (5, 5 + 1) ∨ ((6, 5) : Cell) = (5, 5 - 1))
    ∧ isItWithinBounds ⟨10, 10, {(5, 5)}, [], [(5, 5)]⟩ (6, 5) = true
    ∧ ((6, 5) : Cell) ∉ (⟨10, 10, {(5, 5)}, [], [(5, 5)]⟩ : PlayerState).tracker := by
  refine ⟨by decide, by decide, ?_⟩
  have := select_target_single_open_hit ⟨10, 10, {(5, 5)}, [], [(5, 5)]⟩ 5 3 [5, 4]
    (5, 5) (6, 5) ⟨10, 10, insert (6, 5) {(5, 5)}, [], [(5, 5)]⟩ [] (by decide) (by decide)
  exact ⟨this.1, this.2.1, this.2.2⟩

theorem isCloseToShip_false {p : PlayerState} {c : Cell}
    (h : isCloseToShip p c = false) :
    ∀ s ∈ p.sunkenShips, s.isNearCell c = false := by
  intro s hs
  unfold isCloseToShip at h
  rw [List.any_eq_false] at h
  simpa using h s hs

/-- Claim C5: once a sunken ship is recorded (its cells all previously
attacked, hence tracked), every cell returned by `select_target` in any
later turn is not within one grid-step, including diagonals, of any cell
of that ship. -/
theorem select_target_respects_dead_zone (p : PlayerState) (ffuel fuel : Nat)
    (rnd : List Nat) (s : Ship) (c : Cell) (p' : PlayerState) (r : List Nat)
    (hmem : s ∈ p.sunkenShips)
    (hsb : ∀ a ∈ s.cells, inShipBounds s a)
    (htr : ∀ a ∈ s.cells, a ∈ p.tracker)
    (hsel : selectTarget p ffuel fuel rnd = some (c, p', r)) :
    ∀ a ∈ s.cells, ¬ chebAdj c a := by
  unfold selectTarget at hsel
  cases hgen : generateRandomTarget p ffuel fuel rnd with
  | none =>
    rw [hgen] at hsel
    simp at hsel
  | some pr =>
    obtain ⟨c0, rnd0⟩ := pr
    rw [hgen] at hsel
    simp only [Option.some.injEq, Prod.mk.injEq] at hsel
    obtain ⟨rfl, -, -⟩ := hsel
    unfold generateRandomTarget at hgen
    cases hhunt : isThereAHunt p with
    | none =>
      rw [hhunt] at hgen
      simp at hgen
    | some pr2 =>
      obtain ⟨hunt, hits⟩ := pr2
      rw [hhunt] at hgen
      simp only [] at hgen
      have hexit := grtLoop_exit p ffuel hunt hits
        (decide (0 < p.sunkenShips.length)) fuel rnd c0 rnd0 hgen
      obtain ⟨htrk, hwb, hclose, -⟩ := hexit
      have hsun : decide (0 < p.sunkenShips.length) = true := by
        rw [decide_eq_true_eq]
        exact List.length_pos_of_mem hmem
      have hcl := hclose hsun
      have hnears := isCloseToShip_false hcl s hmem
      intro a ha hadj
      by_cases heq : c0 = a
      · exact htrk (heq ▸ htr a ha)
      · have hc1 : 1 ≤ c0.1 := by
          unfold isItWithinBounds at hwb
          rw [decide_eq_true_eq] at hwb
          exact hwb.1
        have hc2 : 1 ≤ c0.2 := by
          unfold isItWithinBounds at hwb
          rw [decide_eq_true_eq] at hwb
          exact hwb.2.2.1
        have : s.isNearCell c0 = true :=
          (isNearCell_iff s hsb c0 hc1 hc2).mpr
            ⟨a, ha, fun hx => heq hx.symm, chebAdj_comm.mp hadj⟩
        rw [this] at hnears
        exact absurd hnears (by simp)

/-- Witness for C5: sunken ship (3,3)-(3,5) fully tracked, empty open-hit
record; the oracle [7,7] proposes (8,8), which is accepted and is at least
two steps from every cell of the sunken ship. -/
theorem select_target_respects_dead_zone_witness :
    (⟨3, 3, 3, 5, none, none⟩ : Ship) ∈
        (⟨10, 10, {(3, 3), (3, 4), (3, 5)}, [⟨3, 3, 3, 5, none, none⟩],
          [(3, 3), (3, 4), (3, 5)]⟩ : PlayerState).sunkenShips
    ∧ (∀ a ∈ Ship.cells ⟨3, 3, 3, 5, none, none⟩,
        inShipBounds ⟨3, 3, 3, 5, none, none⟩ a)
    ∧ (∀ a ∈ Ship.cells ⟨3, 3, 3, 5, none, none⟩,
        a ∈ (⟨10, 10, {(3, 3), (3, 4), (3, 5)}, [⟨3, 3, 3, 5, none, none⟩],
          [(3, 3), (3, 4), (3, 5)]⟩ : PlayerState).tracker)
    ∧ (∀ a ∈ Ship.cells ⟨3, 3, 3, 5, none, none⟩, ¬ chebAdj (8, 8) a) := by
  refine ⟨by decide, by decide, by decide, ?_⟩
  exact select_target_respects_dead_zone
    ⟨10, 10, {(3, 3), (3, 4), (3, 5)}, [⟨3, 3, 3, 5, none, none⟩],
      [(3, 3), (3, 4), (3, 5)]⟩ 5 3 [7, 7] ⟨3, 3, 3, 5, none, none⟩ (8, 8)
    ⟨10, 10, insert (8, 8) {(3, 3), (3, 4), (3, 5)}, [⟨3, 3, 3, 5, none, none⟩],
      [(3, 3), (3, 4), (3, 5)]⟩ [] (by decide) (by decide) (by decide) (by decide)

/-! ## Claim C4: hunting with several open hits -/

/-- Claim C4, counterexample: the memory holds the two open hits
(1,5) and (3,5) — both on the row y = 5 and not in one column, so the
claim reads the line as horizontal with extremities (1,5) and (3,5) and
requires the next cell to be (0,5) or (4,5). `select_target` instead
returns (1,4): the flood from the first open hit reaches no other hit,
`find_start_and_end` degenerates to the single cell (1,5), and
`get_better_target` treats the ship as vertical. -/
theorem select_target_two_hits_not_extremity :
    isThereAHunt ⟨10, 10, {(1, 5), (3, 5)}, [], [(1, 5), (3, 5)]⟩ =
        some (true, [(1, 5), (3, 5)])
    ∧ (((1 : Int), (5 : Int)).2 = ((3 : Int), (5 : Int)).2
        ∧ ((1 : Int), (5 : Int)).1 ≠ ((3 : Int), (5 : Int)).1)
    ∧ selectTarget ⟨10, 10, {(1, 5), (3, 5)}, [], [(1, 5), (3, 5)]⟩ 5 3 [0, 0, 0] =
        some ((1, 4), ⟨10, 10, insert (1, 4) {(1, 5), (3, 5)}, [], [(1, 5), (3, 5)]⟩, [])
    ∧ ¬(((1 : Int), (4 : Int)) = ((0 : Int), (5 : Int))
        ∨ ((1 : Int), (4 : Int)) = ((4 : Int), (5 : Int))) := by
  decide

theorem pathH_fst (x0 y0 : Int) (i : Nat) : (pathH x0 y0 i).1 = x0 + i := rfl

theorem pathH_snd (x0 y0 : Int) (i : Nat) : (pathH x0 y0 i).2 = y0 := rfl

theorem foldl_floodStep_none (p : PlayerState) (rec : Cell → Option (List Cell)) (e : Cell) :
    ∀ L : List Cell, List.foldl (floodStep p rec e) none L = none := by
  intro L
  induction L with
  | nil => rfl
  | cons q t ih => exact ih

theorem floodStep_skip {p : PlayerState} {rec : Cell → Option (List Cell)} {e q : Cell}
    (hq : q ∉ p.successfulHits ∨ q = e) (l : List Cell) :
    floodStep p rec e (some l) q = some l := by
  unfold floodStep
  dsimp only
  rw [if_neg]
  rintro ⟨h1, h2⟩
  rcases hq with hq | hq
  · exact hq h1
  · exact h2 hq

theorem floodStep_collect {p : PlayerState} {rec : Cell → Option (List Cell)} {e q : Cell}
    (h1 : q ∈ p.successfulHits) (h2 : q ≠ e) (l : List Cell) :
    floodStep p rec e (some l) q =
      match rec q with
      | none => none
      | some sub => some (l ++ q :: sub) := by
  unfold floodStep
  dsimp only
  rw [if_pos ⟨h1, h2⟩]

theorem foldl_guard_skip {p : PlayerState} {rec : Cell → Option (List Cell)} {e : Cell}
    {g : Bool} {x : Cell} (hx : x ∉ p.successfulHits ∨ x = e) (l : List Cell) :
    List.foldl (floodStep p rec e) (some l) (if g then [x] else []) = some l := by
  cases g
  · rfl
  · show floodStep p rec e (some l) x = some l
    exact floodStep_skip hx l

theorem foldl_guard_collect {p : PlayerState} {rec : Cell → Option (List Cell)} {e : Cell}
    {g : Bool} {x : Cell} (hg : g = true) (l : List Cell) :
    List.foldl (floodStep p rec e) (some l) (if g then [x] else []) =
      floodStep p rec e (some l) x := by
  subst hg
  rfl

theorem getAllCells_succ (p : PlayerState) (f : Nat) (cell e : Cell) :
    getAllCells p (f + 1) cell e =
      (pNeighbours p cell false).foldl
        (floodStep p (fun q => getAllCells p f q cell) e) (some []) := rfl

theorem pNeighboursF_shape (p : PlayerState) (c : Cell) :
    pNeighbours p c false =
      (if decide (c.1 ≤ p.boardWidth - 1) then [(c.1 + 1, c.2)] else []) ++
      (if decide (2 ≤ c.1) then [(c.1 - 1, c.2)] else []) ++
      (if decide (c.2 ≤ p.boardHeight - 1) then [(c.1, c.2 + 1)] else []) ++
      (if decide (2 ≤ c.2) then [(c.1, c.2 - 1)] else []) ++
      ((if decide (2 ≤ c.2) && decide (c.1 ≤ p.boardWidth - 1) then [(c.1 + 1, c.2 - 1)] else []) ++
       (if decide (2 ≤ c.2) && decide (2 ≤ c.1) then [(c.1 - 1, c.2 - 1)] else []) ++
       (if decide (c.2 ≤ p.boardHeight - 1) && decide (c.1 ≤ p.boardWidth - 1) then [(c.1 + 1, c.2 + 1)] else []) ++
       (if decide (c.2 ≤ p.boardHeight - 1) && decide (c.1 ≤ p.boardWidth - 1) then [(c.1 - 1, c.2 + 1)] else [])) := rfl

theorem floodH_right {p : PlayerState} {x0 y0 : Int} {n : Nat}
    (hs : pathHSetup p x0 y0 n) :
    ∀ fuel k l, 1 ≤ k → k < n →
      getAllCells p fuel (pathH x0 y0 k) (pathH x0 y0 (k - 1)) = some l →
      l = tailAfter (pathH x0 y0) n k := by
  obtain ⟨hn, ⟨hx1, hxn, hy1, hyH⟩, hS, hIso⟩ := hs
  have hNotS : ∀ (q : Cell) (i : Nat), i < n → chebAdj q (pathH x0 y0 i) →
      (∀ j, j < n → q ≠ pathH x0 y0 j) → q ∉ p.successfulHits := by
    intro q i hi hadj hne hq
    exact hIso q hq hne i hi hadj
  intro fuel
  induction fuel with
  | zero =>
    intro k l hk hkn h
    exact absurd h (by simp [getAllCells])
  | succ f ih =>
    intro k l hk hkn h
    rw [getAllCells_succ, pNeighboursF_shape, pathH_fst, pathH_snd] at h
    simp only [List.foldl_append] at h
    -- skip lemmas for the six off-run neighbours
    have hsB : ((x0 + (k : Int)), y0 + 1) ∉ p.successfulHits := by
      refine hNotS _ k hkn ?_ ?_
      · unfold chebAdj pathH
        dsimp only
        omega
      · intro j hj he
        unfold pathH at he
        rw [Prod.mk.injEq] at he
        omega
    have hsT : ((x0 + (k : Int)), y0 - 1) ∉ p.successfulHits := by
      refine hNotS _ k hkn ?_ ?_
      · unfold chebAdj pathH
        dsimp only
        omega
      · intro j hj he
        unfold pathH at he
        rw [Prod.mk.injEq] at he
        omega
    have hsTR : ((x0 + (k : Int) + 1), y0 - 1) ∉ p.successfulHits := by
      refine hNotS _ k hkn ?_ ?_
      · unfold chebAdj pathH
        dsimp only
        omega
      · intro j hj he
        unfold pathH at he
        rw [Prod.mk.injEq] at he
        omega
    have hsTL : ((x0 + (k : Int) - 1), y0 - 1) ∉ p.successfulHits := by
      refine hNotS _ k hkn ?_ ?_
      · unfold chebAdj pathH
        dsimp only
        omega
      · intro j hj he
        unfold pathH at he
        rw [Prod.mk.injEq] at he
        omega
    have hsBR : ((x0 + (k : Int) + 1), y0 + 1) ∉ p.successfulHits := by
      refine hNotS _ k hkn ?_ ?_
      · unfold chebAdj pathH
        dsimp only
        omega
      · intro j hj he
        unfold pathH at he
        rw [Prod.mk.injEq] at he
        omega
    have hsBL : ((x0 + (k : Int) - 1), y0 + 1) ∉ p.successfulHits := by
      refine hNotS _ k hkn ?_ ?_
      · unfold chebAdj pathH
        dsimp only
        omega
      · intro j hj he
        unfold pathH at he
        rw [Prod.mk.injEq] at he
        omega
    -- the left neighbour is the excluded parent
    have hLeft : ((x0 + (k : Int) - 1), y0) = pathH x0 y0 (k - 1) := by
      unfold pathH
      rw [Prod.mk.injEq]
      omega
    by_cases hkn1 : k + 1 < n
    · -- the right neighbour is collected
      have hgR : decide ((x0 + (k : Int)) ≤ p.boardWidth - 1) = true := by
        rw [decide_eq_true_eq]
        omega
      have hmemR : ((x0 + (k : Int) + 1), y0) ∈ p.successfulHits := by
        have := hS (k + 1) hkn1
        unfold pathH at this
        have he : ((x0 + (k : Int) + 1), y0) = ((x0 + ((k : Nat) + 1 : Nat) : Int), y0) := by
          rw [Prod.mk.injEq]
          constructor
          · push_cast
            ring
          · rfl
        rw [he]
        exact this
      have hneR : ((x0 + (k : Int) + 1), y0) ≠ pathH x0 y0 (k - 1) := by
        unfold pathH
        rw [ne_eq, Prod.mk.injEq]
        omega
      rw [foldl_guard_collect hgR] at h
      rw [floodStep_collect hmemR hneR] at h
      cases hrec : getAllCells p f ((x0 + (k : Int) + 1), y0) (pathH x0 y0 k) with
      | none =>
        rw [hrec] at h
        simp only [foldl_floodStep_none] at h
        exact absurd h (by simp)
      | some sub =>
        rw [hrec] at h
        simp only [] at h
        -- identify the recursive call with the (k+1) instance
        have hcall : getAllCells p f (pathH x0 y0 (k + 1)) (pathH x0 y0 ((k + 1) - 1)) = some sub := by
          have h1 : pathH x0 y0 (k + 1) = ((x0 + (k : Int) + 1), y0) := by
            unfold pathH
            rw [Prod.mk.injEq]
            constructor
            · push_cast
              ring
            · rfl
          have h2 : pathH x0 y0 ((k + 1) - 1) = pathH x0 y0 k := by
            norm_num
          rw [h1, h2]
          exact hrec
        have hsub := ih (k + 1) sub (by omega) hkn1 hcall
        -- remaining segments are skipped
        rw [foldl_guard_skip (Or.inr hLeft)] at h
        rw [foldl_guard_skip (Or.inl hsB)] at h
        rw [foldl_guard_skip (Or.inl hsT)] at h
        rw [foldl_guard_skip (Or.inl hsTR)] at h
        rw [foldl_guard_skip (Or.inl hsTL)] at h
        rw [foldl_guard_skip (Or.inl hsBR)] at h
        rw [foldl_guard_skip (Or.inl hsBL)] at h
        rw [Option.some_inj] at h
        subst h
        rw [hsub]
        unfold tailAfter
        have hlen : n - 1 - k = (n - 1 - (k + 1)) + 1 := by omega
        rw [hlen, List.range_succ_eq_map]
        simp only [List.map_cons, List.map_map, List.nil_append]
        congr 1
        · unfold pathH
          rw [Prod.mk.injEq]
          refine ⟨by push_cast; ring, rfl⟩
        · apply List.map_congr_left
          intro j hj
          simp only [Function.comp]
          congr 1
          omega
    · -- k is the right end of the run: the right neighbour is not a hit
      have hsR : ((x0 + (k : Int) + 1), y0) ∉ p.successfulHits := by
        refine hNotS _ k hkn ?_ ?_
        · unfold chebAdj pathH
          dsimp only
          omega
        · intro j hj he
          unfold pathH at he
          rw [Prod.mk.injEq] at he
          omega
      rw [foldl_guard_skip (Or.inl hsR)] at h
      rw [foldl_guard_skip (Or.inr hLeft)] at h
      rw [foldl_guard_skip (Or.inl hsB)] at h
      rw [foldl_guard_skip (Or.inl hsT)] at h
      rw [foldl_guard_skip (Or.inl hsTR)] at h
      rw [foldl_guard_skip (Or.inl hsTL)] at h
      rw [foldl_guard_skip (Or.inl hsBR)] at h
      rw [foldl_guard_skip (Or.inl hsBL)] at h
      rw [Option.some_inj] at h
      subst h
      unfold tailAfter
      have hlen : n - 1 - k = 0 := by omega
      rw [hlen]
      rfl

theorem floodH_left {p : PlayerState} {x0 y0 : Int} {n : Nat}
    (hs : pathHSetup p x0 y0 n) :
    ∀ fuel k l, k + 1 < n →
      getAllCells p fuel (pathH x0 y0 k) (pathH x0 y0 (k + 1)) = some l →
      l = tailBefore (pathH x0 y0) k := by
  obtain ⟨hn, ⟨hx1, hxn, hy1, hyH⟩, hS, hIso⟩ := hs
  have hNotS : ∀ (q : Cell) (i : Nat), i < n → chebAdj q (pathH x0 y0 i) →
      (∀ j, j < n → q ≠ pathH x0 y0 j) → q ∉ p.successfulHits := by
    intro q i hi hadj hne hq
    exact hIso q hq hne i hi hadj
  intro fuel
  induction fuel with
  | zero =>
    intro k l hkn h
    exact absurd h (by simp [getAllCells])
  | succ f ih =>
    intro k l hkn h
    have hkn' : k < n := by omega
    rw [getAllCells_succ, pNeighboursF_shape, pathH_fst, pathH_snd] at h
    simp only [List.foldl_append] at h
    have hsB : ((x0 + (k : Int)), y0 + 1) ∉ p.successfulHits := by
      refine hNotS _ k hkn' ?_ ?_
      · unfold chebAdj pathH
        dsimp only
        omega
      · intro j hj he
        unfold pathH at he
        rw [Prod.mk.injEq] at he
        omega
    have hsT : ((x0 + (k : Int)), y0 - 1) ∉ p.successfulHits := by
      refine hNotS _ k hkn' ?_ ?_
      · unfold chebAdj pathH
        dsimp only
        omega
      · intro j hj he
        unfold pathH at he
        rw [Prod.mk.injEq] at he
        omega
    have hsTR : ((x0 + (k : Int) + 1), y0 - 1) ∉ p.successfulHits := by
      refine hNotS _ k hkn' ?_ ?_
      · unfold chebAdj pathH
        dsimp only
        omega
      · intro j hj he
        unfold pathH at he
        rw [Prod.mk.injEq] at he
        omega
    have hsTL : ((x0 + (k : Int) - 1), y0 - 1) ∉ p.successfulHits := by
      refine hNotS _ k hkn' ?_ ?_
      · unfold chebAdj pathH
        dsimp only
        omega
      · intro j hj he
        unfold pathH at he
        rw [Prod.mk.injEq] at he
        omega
    have hsBR : ((x0 + (k : Int) + 1), y0 + 1) ∉ p.successfulHits := by
      refine hNotS _ k hkn' ?_ ?_
      · unfold chebAdj pathH
        dsimp only
        omega
      · intro j hj he
        unfold pathH at he
        rw [Prod.mk.injEq] at he
        omega
    have hsBL : ((x0 + (k : Int) - 1), y0 + 1) ∉ p.successfulHits := by
      refine hNotS _ k hkn' ?_ ?_
      · unfold chebAdj pathH
        dsimp only
        omega
      · intro j hj he
        unfold pathH at he
        rw [Prod.mk.injEq] at he
        omega
    -- the right neighbour is the excluded parent
    have hRight : ((x0 + (k : Int) + 1), y0) = pathH x0 y0 (k + 1) := by
      unfold pathH
      rw [Prod.mk.injEq]
      refine ⟨by push_cast; ring, rfl⟩
    rw [foldl_guard_skip (Or.inr hRight)] at h
    by_cases hk1 : 1 ≤ k
    · -- the left neighbour is collected
      have hgL : decide (2 ≤ x0 + (k : Int)) = true := by
        rw [decide_eq_true_eq]
        omega
      have hmemL : ((x0 + (k : Int) - 1), y0) ∈ p.successfulHits := by
        have := hS (k - 1) (by omega)
        unfold pathH at this
        have he : ((x0 + (k : Int) - 1), y0) = ((x0 + ((k : Nat) - 1 : Nat) : Int), y0) := by
          rw [Prod.mk.injEq]
          refine ⟨?_, rfl⟩
          omega
        rw [he]
        exact this
      have hneL : ((x0 + (k : Int) - 1), y0) ≠ pathH x0 y0 (k + 1) := by
        unfold pathH
        rw [ne_eq, Prod.mk.injEq]
        omega
      rw [foldl_guard_collect hgL] at h
      rw [floodStep_collect hmemL hneL] at h
      cases hrec : getAllCells p f ((x0 + (k : Int) - 1), y0) (pathH x0 y0 k) with
      | none =>
        rw [hrec] at h
        simp only [foldl_floodStep_none] at h
        exact absurd h (by simp)
      | some sub =>
        rw [hrec] at h
        simp only [] at h
        have hcall : getAllCells p f (pathH x0 y0 (k - 1)) (pathH x0 y0 ((k - 1) + 1)) = some sub := by
          have h1 : pathH x0 y0 (k - 1) = ((x0 + (k : Int) - 1), y0) := by
            unfold pathH
            rw [Prod.mk.injEq]
            refine ⟨?_, rfl⟩
            omega
          have h2 : pathH x0 y0 ((k - 1) + 1) = pathH x0 y0 k := by
            congr 1
            omega
          rw [h1, h2]
          exact hrec
        have hsub := ih (k - 1) sub (by omega) hcall
        rw [foldl_guard_skip (Or.inl hsB)] at h
        rw [foldl_guard_skip (Or.inl hsT)] at h
        rw [foldl_guard_skip (Or.inl hsTR)] at h
        rw [foldl_guard_skip (Or.inl hsTL)] at h
        rw [foldl_guard_skip (Or.inl hsBR)] at h
        rw [foldl_guard_skip (Or.inl hsBL)] at h
        rw [Option.some_inj] at h
        subst h
        rw [hsub]
        unfold tailBefore
        have hlen : k = (k - 1) + 1 := by omega
        rw [show List.range k = List.range ((k - 1) + 1) from by rw [← hlen]]
        rw [List.range_succ_eq_map]
        simp only [List.map_cons, List.map_map, List.nil_append]
        congr 1
        · unfold pathH
          rw [Prod.mk.injEq]
          refine ⟨?_, rfl⟩
          omega
        · apply List.map_congr_left
          intro j hj
          simp only [Function.comp]
          congr 1
          omega
    · -- k = 0: the left neighbour is off the run
      have hk0 : k = 0 := by omega
      have hsL : ((x0 + (k : Int) - 1), y0) ∉ p.successfulHits := by
        refine hNotS _ k hkn' ?_ ?_
        · unfold chebAdj pathH
          dsimp only
          omega
        · intro j hj he
          unfold pathH at he
          rw [Prod.mk.injEq] at he
          omega
      rw [foldl_guard_skip (Or.inl hsL)] at h
      rw [foldl_guard_skip (Or.inl hsB)] at h
      rw [foldl_guard_skip (Or.inl hsT)] at h
      rw [foldl_guard_skip (Or.inl hsTR)] at h
      rw [foldl_guard_skip (Or.inl hsTL)] at h
      rw [foldl_guard_skip (Or.inl hsBR)] at h
      rw [foldl_guard_skip (Or.inl hsBL)] at h
      rw [Option.some_inj] at h
      subst h
      rw [hk0]
      rfl

theorem floodH_init {p : PlayerState} {x0 y0 : Int} {n : Nat}
    (hs : pathHSetup p x0 y0 n) :
    ∀ fuel j l, j < n →
      getAllCells p fuel (pathH x0 y0 j) (pathH x0 y0 j) = some l →
      l = tailAfter (pathH x0 y0) n j ++ tailBefore (pathH x0 y0) j := by
  obtain ⟨hn, ⟨hx1, hxn, hy1, hyH⟩, hS, hIso⟩ := hs
  have hsetup : pathHSetup p x0 y0 n := ⟨hn, ⟨hx1, hxn, hy1, hyH⟩, hS, hIso⟩
  have hNotS : ∀ (q : Cell) (i : Nat), i < n → chebAdj q (pathH x0 y0 i) →
      (∀ j, j < n → q ≠ pathH x0 y0 j) → q ∉ p.successfulHits := by
    intro q i hi hadj hne hq
    exact hIso q hq hne i hi hadj
  intro fuel
  cases fuel with
  | zero =>
    intro j l hj h
    exact absurd h (by simp [getAllCells])
  | succ f =>
    intro j l hj h
    rw [getAllCells_succ, pNeighboursF_shape, pathH_fst, pathH_snd] at h
    simp only [List.foldl_append] at h
    have hsB : ((x0 + (j : Int)), y0 + 1) ∉ p.successfulHits := by
      refine hNotS _ j hj ?_ ?_
      · unfold chebAdj pathH
        dsimp only
        omega
      · intro i hi he
        unfold pathH at he
        rw [Prod.mk.injEq] at he
        omega
    have hsT : ((x0 + (j : Int)), y0 - 1) ∉ p.successfulHits := by
      refine hNotS _ j hj ?_ ?_
      · unfold chebAdj pathH
        dsimp only
        omega
      · intro i hi he
        unfold pathH at he
        rw [Prod.mk.injEq] at he
        omega
    have hsTR : ((x0 + (j : Int) + 1), y0 - 1) ∉ p.successfulHits := by
      refine hNotS _ j hj ?_ ?_
      · unfold chebAdj pathH
        dsimp only
        omega
      · intro i hi he
        unfold pathH at he
        rw [Prod.mk.injEq] at he
        omega
    have hsTL : ((x0 + (j : Int) - 1), y0 - 1) ∉ p.successfulHits := by
      refine hNotS _ j hj ?_ ?_
      · unfold chebAdj pathH
        dsimp only
        omega
      · intro i hi he
        unfold pathH at he
        rw [Prod.mk.injEq] at he
        omega
    have hsBR : ((x0 + (j : Int) + 1), y0 + 1) ∉ p.successfulHits := by
      refine hNotS _ j hj ?_ ?_
      · unfold chebAdj pathH
        dsimp only
        omega
      · intro i hi he
        unfold pathH at he
        rw [Prod.mk.injEq] at he
        omega
    have hsBL : ((x0 + (j : Int) - 1), y0 + 1) ∉ p.successfulHits := by
      refine hNotS _ j hj ?_ ?_
      · unfold chebAdj pathH
        dsimp only
        omega
      · intro i hi he
        unfold pathH at he
        rw [Prod.mk.injEq] at he
        omega
    cases hpre : List.foldl
        (floodStep p (fun q => getAllCells p f q (pathH x0 y0 j)) (pathH x0 y0 j))
        (List.foldl (floodStep p (fun q => getAllCells p f q (pathH x0 y0 j)) (pathH x0 y0 j))
          (some [])
          (if decide (x0 + (j : Int) ≤ p.boardWidth - 1) then [((x0 + (j : Int) + 1), y0)] else []))
        (if decide (2 ≤ x0 + (j : Int)) then [((x0 + (j : Int) - 1), y0)] else []) with
    | none =>
      rw [hpre] at h
      simp only [foldl_floodStep_none] at h
      exact absurd h (by simp)
    | some l0 =>
      rw [hpre] at h
      rw [foldl_guard_skip (Or.inl hsB)] at h
      rw [foldl_guard_skip (Or.inl hsT)] at h
      rw [foldl_guard_skip (Or.inl hsTR)] at h
      rw [foldl_guard_skip (Or.inl hsTL)] at h
      rw [foldl_guard_skip (Or.inl hsBR)] at h
      rw [foldl_guard_skip (Or.inl hsBL)] at h
      rw [Option.some_inj] at h
      subst h
      -- analyse the two-segment prefix
      by_cases hj1 : j + 1 < n
      · have hgR : decide ((x0 + (j : Int)) ≤ p.boardWidth - 1) = true := by
          rw [decide_eq_true_eq]
          omega
        have hmemR : ((x0 + (j : Int) + 1), y0) ∈ p.successfulHits := by
          have := hS (j + 1) hj1
          unfold pathH at this
          have he : ((x0 + (j : Int) + 1), y0) = ((x0 + ((j : Nat) + 1 : Nat) : Int), y0) := by
            rw [Prod.mk.injEq]
            refine ⟨by push_cast; ring, rfl⟩
          rw [he]
          exact this
        have hneR : ((x0 + (j : Int) + 1), y0) ≠ pathH x0 y0 j := by
          unfold pathH
          rw [ne_eq, Prod.mk.injEq]
          omega
        rw [foldl_guard_collect hgR, floodStep_collect hmemR hneR] at hpre
        cases hrecR : getAllCells p f ((x0 + (j : Int) + 1), y0) (pathH x0 y0 j) with
        | none =>
          rw [hrecR] at hpre
          simp only [foldl_floodStep_none] at hpre
          exact absurd hpre (by simp)
        | some subR =>
          rw [hrecR] at hpre
          simp only [] at hpre
          have hcallR : getAllCells p f (pathH x0 y0 (j + 1))
              (pathH x0 y0 ((j + 1) - 1)) = some subR := by
            have h1 : pathH x0 y0 (j + 1) = ((x0 + (j : Int) + 1), y0) := by
              unfold pathH
              rw [Prod.mk.injEq]
              refine ⟨by push_cast; ring, rfl⟩
            have h2 : pathH x0 y0 ((j + 1) - 1) = pathH x0 y0 j := by
              congr 1
            rw [h1, h2]
            exact hrecR
          have hsubR := floodH_right hsetup f (j + 1) subR (by omega) hj1 hcallR
          have hA : ((x0 + (j : Int) + 1), y0) :: tailAfter (pathH x0 y0) n (j + 1) =
              tailAfter (pathH x0 y0) n j := by
            unfold tailAfter
            have hlen : n - 1 - j = (n - 1 - (j + 1)) + 1 := by omega
            rw [hlen, List.range_succ_eq_map]
            simp only [List.map_cons, List.map_map]
            congr 1
            · unfold pathH
              rw [Prod.mk.injEq]
              refine ⟨by push_cast; ring, rfl⟩
            · apply List.map_congr_left
              intro i hi
              simp only [Function.comp]
              congr 1
              omega
          by_cases hjl : 1 ≤ j
          · have hgL : decide (2 ≤ x0 + (j : Int)) = true := by
              rw [decide_eq_true_eq]
              omega
            have hmemL : ((x0 + (j : Int) - 1), y0) ∈ p.successfulHits := by
              have := hS (j - 1) (by omega)
              unfold pathH at this
              have he : ((x0 + (j : Int) - 1), y0) = ((x0 + ((j : Nat) - 1 : Nat) : Int), y0) := by
                rw [Prod.mk.injEq]
                refine ⟨by omega, rfl⟩
              rw [he]
              exact this
            have hneL : ((x0 + (j : Int) - 1), y0) ≠ pathH x0 y0 j := by
              unfold pathH
              rw [ne_eq, Prod.mk.injEq]
              omega
            rw [foldl_guard_collect hgL, floodStep_collect hmemL hneL] at hpre
            cases hrecL : getAllCells p f ((x0 + (j : Int) - 1), y0) (pathH x0 y0 j) with
            | none =>
              rw [hrecL] at hpre
              exact absurd hpre (by simp)
            | some subL =>
              rw [hrecL] at hpre
              simp only [] at hpre
              have hcallL : getAllCells p f (pathH x0 y0 (j - 1))
                  (pathH x0 y0 ((j - 1) + 1)) = some subL := by
                have h1 : pathH x0 y0 (j - 1) = ((x0 + (j : Int) - 1), y0) := by
                  unfold pathH
                  rw [Prod.mk.injEq]
                  refine ⟨by omega, rfl⟩
                have h2 : pathH x0 y0 ((j - 1) + 1) = pathH x0 y0 j := by
                  congr 1
                  omega
                rw [h1, h2]
                exact hrecL
              have hsubL := floodH_left hsetup f (j - 1) subL (by omega) hcallL
              have hB : ((x0 + (j : Int) - 1), y0) :: tailBefore (pathH x0 y0) (j - 1) =
                  tailBefore (pathH x0 y0) j := by
                unfold tailBefore
                rw [show List.range j = List.range ((j - 1) + 1) from by congr 1; omega]
                rw [List.range_succ_eq_map]
                simp only [List.map_cons, List.map_map]
                congr 1
                · unfold pathH
                  rw [Prod.mk.injEq]
                  refine ⟨by omega, rfl⟩
                · apply List.map_congr_left
                  intro i hi
                  simp only [Function.comp]
                  congr 1
                  omega
              rw [Option.some_inj] at hpre
              subst hpre
              rw [hsubR, hsubL, List.nil_append, ← hA, ← hB]
          · have hj0 : j = 0 := by omega
            have hsL : ((x0 + (j : Int) - 1), y0) ∉ p.successfulHits := by
              refine hNotS _ j hj ?_ ?_
              · unfold chebAdj pathH
                dsimp only
                omega
              · intro i hi he
                unfold pathH at he
                rw [Prod.mk.injEq] at he
                omega
            rw [foldl_guard_skip (Or.inl hsL)] at hpre
            rw [Option.some_inj] at hpre
            subst hpre
            rw [hsubR, List.nil_append, ← hA]
            rw [hj0]
            simp [tailBefore]
      · -- j = n - 1: the right neighbour is off the run, the left is collected
        have hsR : ((x0 + (j : Int) + 1), y0) ∉ p.successfulHits := by
          refine hNotS _ j hj ?_ ?_
          · unfold chebAdj pathH
            dsimp only
            omega
          · intro i hi he
            unfold pathH at he
            rw [Prod.mk.injEq] at he
            omega
        rw [foldl_guard_skip (Or.inl hsR)] at hpre
        have hjl : 1 ≤ j := by omega
        have hgL : decide (2 ≤ x0 + (j : Int)) = true := by
          rw [decide_eq_true_eq]
          omega
        have hmemL : ((x0 + (j : Int) - 1), y0) ∈ p.successfulHits := by
          have := hS (j - 1) (by omega)
          unfold pathH at this
          have he : ((x0 + (j : Int) - 1), y0) = ((x0 + ((j : Nat) - 1 : Nat) : Int), y0) := by
            rw [Prod.mk.injEq]
            refine ⟨by omega, rfl⟩
          rw [he]
          exact this
        have hneL : ((x0 + (j : Int) - 1), y0) ≠ pathH x0 y0 j := by
          unfold pathH
          rw [ne_eq, Prod.mk.injEq]
          omega
        rw [foldl_guard_collect hgL, floodStep_collect hmemL hneL] at hpre
        cases hrecL : getAllCells p f ((x0 + (j : Int) - 1), y0) (pathH x0 y0 j) with
        | none =>
          rw [hrecL] at hpre
          exact absurd hpre (by simp)
        | some subL =>
          rw [hrecL] at hpre
          simp only [] at hpre
          have hcallL : getAllCells p f (pathH x0 y0 (j - 1))
              (pathH x0 y0 ((j - 1) + 1)) = some subL := by
            have h1 : pathH x0 y0 (j - 1) = ((x0 + (j : Int) - 1), y0) := by
              unfold pathH
              rw [Prod.mk.injEq]
              refine ⟨by omega, rfl⟩
            have h2 : pathH x0 y0 ((j - 1) + 1) = pathH x0 y0 j := by
              congr 1
              omega
            rw [h1, h2]
            exact hrecL
          have hsubL := floodH_left hsetup f (j - 1) subL (by omega) hcallL
          have hB : ((x0 + (j : Int) - 1), y0) :: tailBefore (pathH x0 y0) (j - 1) =
              tailBefore (pathH x0 y0) j := by
            unfold tailBefore
            rw [show List.range j = List.range ((j - 1) + 1) from by congr 1; omega]
            rw [List.range_succ_eq_map]
            simp only [List.map_cons, List.map_map]
            congr 1
            · unfold pathH
              rw [Prod.mk.injEq]
              refine ⟨by omega, rfl⟩
            · apply List.map_congr_left
              intro i hi
              simp only [Function.comp]
              congr 1
              omega
          rw [Option.some_inj] at hpre
          subst hpre
          rw [hsubL, List.nil_append, ← hB]
          have hafter : tailAfter (pathH x0 y0) n j = [] := by
            unfold tailAfter
            rw [show n - 1 - j = 0 from by omega]
            rfl
          rw [hafter, List.nil_append]

theorem pathH_inj {x0 y0 : Int} : Function.Injective (pathH x0 y0) := by
  intro i j h
  unfold pathH at h
  rw [Prod.mk.injEq] at h
  omega

theorem tailAfter_eq_map (path : Nat → Cell) (n k : Nat) :
    tailAfter path n k = List.map path ((List.range (n - 1 - k)).map (fun t => k + 1 + t)) := by
  rw [List.map_map]
  rfl

theorem tailBefore_eq_map (path : Nat → Cell) (k : Nat) :
    tailBefore path k = List.map path ((List.range k).map (fun t => k - 1 - t)) := by
  rw [List.map_map]
  rfl

theorem mem_tailAfter {path : Nat → Cell} {n k : Nat} {c : Cell}
    (h : c ∈ tailAfter path n k) : ∃ i, k < i ∧ i < n ∧ c = path i := by
  rw [tailAfter_eq_map] at h
  simp only [List.mem_map, List.mem_range] at h
  obtain ⟨i, ⟨t, ht, rfl⟩, rfl⟩ := h
  exact ⟨k + 1 + t, by omega, by omega, rfl⟩

theorem mem_tailBefore {path : Nat → Cell} {k : Nat} {c : Cell}
    (h : c ∈ tailBefore path k) : ∃ i, i < k ∧ c = path i := by
  rw [tailBefore_eq_map] at h
  simp only [List.mem_map, List.mem_range] at h
  obtain ⟨i, ⟨t, ht, rfl⟩, rfl⟩ := h
  exact ⟨k - 1 - t, by omega, rfl⟩

theorem tailAfter_mem {path : Nat → Cell} {n k i : Nat} (h1 : k < i) (h2 : i < n) :
    path i ∈ tailAfter path n k := by
  rw [tailAfter_eq_map]
  simp only [List.mem_map, List.mem_range]
  exact ⟨i, ⟨i - k - 1, by omega, by omega⟩, rfl⟩

theorem tailBefore_mem {path : Nat → Cell} {k i : Nat} (h1 : i < k) :
    path i ∈ tailBefore path k := by
  rw [tailBefore_eq_map]
  simp only [List.mem_map, List.mem_range]
  exact ⟨i, ⟨k - 1 - i, by omega, by omega⟩, rfl⟩

theorem pathCells_nodup {x0 y0 : Int} {n j : Nat} (hj : j < n) :
    ((tailAfter (pathH x0 y0) n j ++ tailBefore (pathH x0 y0) j) ++ [pathH x0 y0 j]).Nodup := by
  rw [tailAfter_eq_map, tailBefore_eq_map,
    show [pathH x0 y0 j] = List.map (pathH x0 y0) [j] from rfl,
    ← List.map_append, ← List.map_append]
  apply List.Nodup.map pathH_inj
  rw [List.nodup_append, List.nodup_append]
  refine ⟨⟨?_, ?_, ?_⟩, ?_, ?_⟩
  · apply List.Nodup.map
    · intro a b hab
      dsimp only at hab
      omega
    · exact List.nodup_range _
  · apply List.Nodup.map_on
    · intro a ha b hb hab
      rw [List.mem_range] at ha hb
      omega
    · exact List.nodup_range _
  · intro a ha hb
    simp only [List.mem_map, List.mem_range] at ha hb
    obtain ⟨t, ht, rfl⟩ := ha
    obtain ⟨u, hu, he⟩ := hb
    omega
  · rw [List.nodup_cons]
    exact ⟨by simp, List.nodup_nil⟩
  · intro a ha hb
    simp only [List.mem_append, List.mem_map, List.mem_range, List.mem_singleton] at ha hb
    rcases ha with ⟨t, ht, rfl⟩ | ⟨t, ht, rfl⟩ <;> omega

theorem fse_fold_engaged (vertical : Bool) :
    ∀ (L : List Cell) (s e : Cell),
      ∃ s' e',
        List.foldl (fseStep vertical)
          (some s, some e, (if vertical then s.2 else s.1), (if vertical then e.2 else e.1)) L =
          (some s', some e', (if vertical then s'.2 else s'.1), (if vertical then e'.2 else e'.1))
        ∧ (s' = s ∨ s' ∈ L) ∧ (e' = e ∨ e' ∈ L)
        ∧ (if vertical then s'.2 else s'.1) ≤ (if vertical then s.2 else s.1)
        ∧ (∀ c ∈ L, (if vertical then s'.2 else s'.1) ≤ (if vertical then c.2 else c.1))
        ∧ (if vertical then e.2 else e.1) ≤ (if vertical then e'.2 else e'.1)
        ∧ (∀ c ∈ L, (if vertical then c.2 else c.1) ≤ (if vertical then e'.2 else e'.1)) := by
  intro L
  induction L with
  | nil =>
    intro s e
    exact ⟨s, e, rfl, Or.inl rfl, Or.inl rfl, le_refl _, by simp, le_refl _, by simp⟩
  | cons c t ih =>
    intro s e
    have hstep : ∀ s2 e2 : Cell,
        s2 = (if (if vertical then c.2 else c.1) < (if vertical then s.2 else s.1) then c else s) →
        e2 = (if (if vertical then e.2 else e.1) < (if vertical then c.2 else c.1) then c else e) →
        fseStep vertical
          (some s, some e, (if vertical then s.2 else s.1), (if vertical then e.2 else e.1)) c =
          (some s2, some e2, (if vertical then s2.2 else s2.1), (if vertical then e2.2 else e2.1)) := by
      intro s2 e2 hs2 he2
      unfold fseStep
      dsimp only
      by_cases h1 : (if vertical then c.2 else c.1) < (if vertical then s.2 else s.1) <;>
        by_cases h2 : (if vertical then e.2 else e.1) < (if vertical then c.2 else c.1)
      · rw [if_pos h1] at hs2
        rw [if_pos h2] at he2
        subst hs2
        subst he2
        rw [if_pos h1, if_pos h1, if_pos h2, if_pos h2]
      · rw [if_pos h1] at hs2
        rw [if_neg h2] at he2
        subst hs2
        subst he2
        rw [if_pos h1, if_pos h1, if_neg h2, if_neg h2]
      · rw [if_neg h1] at hs2
        rw [if_pos h2] at he2
        subst hs2
        subst he2
        rw [if_neg h1, if_neg h1, if_pos h2, if_pos h2]
      · rw [if_neg h1] at hs2
        rw [if_neg h2] at he2
        subst hs2
        subst he2
        rw [if_neg h1, if_neg h1, if_neg h2, if_neg h2]
    have hfold : List.foldl (fseStep vertical)
        (some s, some e, (if vertical then s.2 else s.1), (if vertical then e.2 else e.1))
        (c :: t) =
        List.foldl (fseStep vertical)
          (some (if (if vertical then c.2 else c.1) < (if vertical then s.2 else s.1) then c else s),
           some (if (if vertical then e.2 else e.1) < (if vertical then c.2 else c.1) then c else e),
           (if vertical then (if (if vertical then c.2 else c.1) < (if vertical then s.2 else s.1) then c else s).2
            else (if (if vertical then c.2 else c.1) < (if vertical then s.2 else s.1) then c else s).1),
           (if vertical then (if (if vertical then e.2 else e.1) < (if vertical then c.2 else c.1) then c else e).2
            else (if (if vertical then e.2 else e.1) < (if vertical then c.2 else c.1) then c else e).1)) t := by
      show List.foldl (fseStep vertical) (fseStep vertical _ c) t = _
      rw [hstep _ _ rfl rfl]
    rw [hfold]
    obtain ⟨s', e', hres, hsmem, hemem, hsle, hsall, hele, heall⟩ := ih
      (if (if vertical then c.2 else c.1) < (if vertical then s.2 else s.1) then c else s)
      (if (if vertical then e.2 else e.1) < (if vertical then c.2 else c.1) then c else e)
    refine ⟨s', e', hres, ?_, ?_, ?_, ?_, ?_, ?_⟩
    · rcases hsmem with h | h
      · by_cases h1 : (if vertical then c.2 else c.1) < (if vertical then s.2 else s.1)
        · rw [if_pos h1] at h
          exact Or.inr (h ▸ List.mem_cons_self c t)
        · rw [if_neg h1] at h
          exact Or.inl h
      · exact Or.inr (List.mem_cons_of_mem c h)
    · rcases hemem with h | h
      · by_cases h2 : (if vertical then e.2 else e.1) < (if vertical then c.2 else c.1)
        · rw [if_pos h2] at h
          exact Or.inr (h ▸ List.mem_cons_self c t)
        · rw [if_neg h2] at h
          exact Or.inl h
      · exact Or.inr (List.mem_cons_of_mem c h)
    · by_cases h1 : (if vertical then c.2 else c.1) < (if vertical then s.2 else s.1)
      · rw [if_pos h1] at hsle
        omega
      · rw [if_neg h1] at hsle
        exact hsle
    · intro d hd
      rcases List.mem_cons.mp hd with rfl | hd
      · by_cases h1 : (if vertical then d.2 else d.1) < (if vertical then s.2 else s.1)
        · rw [if_pos h1] at hsle
          exact hsle
        · rw [if_neg h1] at hsle
          omega
      · exact hsall d hd
    · by_cases h2 : (if vertical then e.2 else e.1) < (if vertical then c.2 else c.1)
      · rw [if_pos h2] at hele
        omega
      · rw [if_neg h2] at hele
        exact hele
    · intro d hd
      rcases List.mem_cons.mp hd with rfl | hd
      · by_cases h2 : (if vertical then e.2 else e.1) < (if vertical then d.2 else d.1)
        · rw [if_pos h2] at hele
          exact hele
        · rw [if_neg h2] at hele
          omega
      · exact heall d hd

theorem fse_engage (vertical : Bool) (c0 : Cell) (mn0 : Int)
    (h1 : (if vertical then c0.2 else c0.1) < mn0)
    (h2 : 0 < (if vertical then c0.2 else c0.1)) :
    fseStep vertical (none, none, mn0, 0) c0 =
      (some c0, some c0, (if vertical then c0.2 else c0.1), (if vertical then c0.2 else c0.1)) := by
  unfold fseStep
  dsimp only
  rw [if_pos h1, if_pos h1, if_pos h2, if_pos h2]

theorem fse_fold_full (vertical : Bool) (L : List Cell) (c0 : Cell) (mn0 : Int)
    (hlt : ∀ c ∈ c0 :: L, (if vertical then c.2 else c.1) < mn0)
    (hpos : ∀ c ∈ c0 :: L, 0 < (if vertical then c.2 else c.1)) :
    ∃ s' e', List.foldl (fseStep vertical) (none, none, mn0, 0) (c0 :: L) =
        (some s', some e', (if vertical then s'.2 else s'.1), (if vertical then e'.2 else e'.1))
      ∧ s' ∈ c0 :: L ∧ e' ∈ c0 :: L
      ∧ (∀ c ∈ c0 :: L, (if vertical then s'.2 else s'.1) ≤ (if vertical then c.2 else c.1))
      ∧ (∀ c ∈ c0 :: L, (if vertical then c.2 else c.1) ≤ (if vertical then e'.2 else e'.1)) := by
  have hc0 : List.foldl (fseStep vertical) (none, none, mn0, 0) (c0 :: L) =
      List.foldl (fseStep vertical)
        (some c0, some c0, (if vertical then c0.2 else c0.1), (if vertical then c0.2 else c0.1)) L := by
    show List.foldl (fseStep vertical) (fseStep vertical (none, none, mn0, 0) c0) L = _
    rw [fse_engage vertical c0 mn0 (hlt c0 (List.mem_cons_self c0 L)) (hpos c0 (List.mem_cons_self c0 L))]
  rw [hc0]
  obtain ⟨s', e', hres, hsmem, hemem, hsle, hsall, hele, heall⟩ := fse_fold_engaged vertical L c0 c0
  refine ⟨s', e', hres, ?_, ?_, ?_, ?_⟩
  · rcases hsmem with h | h
    · exact h ▸ List.mem_cons_self c0 L
    · exact List.mem_cons_of_mem c0 h
  · rcases hemem with h | h
    · exact h ▸ List.mem_cons_self c0 L
    · exact List.mem_cons_of_mem c0 h
  · intro c hc
    rcases List.mem_cons.mp hc with rfl | hc
    · exact hsle
    · exact hsall c hc
  · intro c hc
    rcases List.mem_cons.mp hc with rfl | hc
    · exact hele
    · exact heall c hc

theorem findStartAndEndH {p : PlayerState} {x0 y0 : Int} {n : Nat}
    (hs : pathHSetup p x0 y0 n) (ffuel : Nat) (j : Nat) (hj : j < n) {s e : Cell}
    (h : findStartAndEnd p ffuel (pathH x0 y0 j) = some (s, e)) :
    s = pathH x0 y0 0 ∧ e = pathH x0 y0 (n - 1) := by
  obtain ⟨hn, ⟨hx1, hxn, hy1, hyH⟩, hS, hIso⟩ := hs
  have hsetup : pathHSetup p x0 y0 n := ⟨hn, ⟨hx1, hxn, hy1, hyH⟩, hS, hIso⟩
  unfold findStartAndEnd at h
  cases hfl : getAllCells p ffuel (pathH x0 y0 j) (pathH x0 y0 j) with
  | none =>
    rw [hfl] at h
    simp at h
  | some flood =>
    rw [hfl] at h
    simp only [] at h
    have hflood := floodH_init hsetup ffuel j flood hj hfl
    subst hflood
    have hmem : ∀ c ∈ (tailAfter (pathH x0 y0) n j ++ tailBefore (pathH x0 y0) j)
        ++ [pathH x0 y0 j], ∃ i, i < n ∧ c = pathH x0 y0 i := by
      intro c hc
      rcases List.mem_append.mp hc with hc | hc
      · rcases List.mem_append.mp hc with hc | hc
        · obtain ⟨i, h1, h2, rfl⟩ := mem_tailAfter hc
          exact ⟨i, h2, rfl⟩
        · obtain ⟨i, h1, rfl⟩ := mem_tailBefore hc
          exact ⟨i, by omega, rfl⟩
      · rw [List.mem_singleton.mp hc]
        exact ⟨j, hj, rfl⟩
    have hmem' : ∀ i, i < n → pathH x0 y0 i ∈
        (tailAfter (pathH x0 y0) n j ++ tailBefore (pathH x0 y0) j) ++ [pathH x0 y0 j] := by
      intro i hi
      rcases Nat.lt_trichotomy i j with hij | rfl | hij
      · exact List.mem_append.mpr (Or.inl (List.mem_append.mpr (Or.inr (tailBefore_mem hij))))
      · exact List.mem_append.mpr (Or.inr (List.mem_singleton.mpr rfl))
      · exact List.mem_append.mpr (Or.inl (List.mem_append.mpr (Or.inl (tailAfter_mem hij hi))))
    have hnodup := @pathCells_nodup x0 y0 n j hj
    have hlen : ((tailAfter (pathH x0 y0) n j ++ tailBefore (pathH x0 y0) j)
        ++ [pathH x0 y0 j]).length = n := by
      rw [tailAfter_eq_map, tailBefore_eq_map]
      simp only [List.length_append, List.length_map, List.length_range, List.length_singleton]
      omega
    rw [if_neg (by rw [hlen]; omega)] at h
    -- orientation: the first two cells are distinct run cells, so not vertical
    have hvert : isThisShipVertical
        ((tailAfter (pathH x0 y0) n j ++ tailBefore (pathH x0 y0) j) ++ [pathH x0 y0 j]) =
        some false := by
      cases hc : (tailAfter (pathH x0 y0) n j ++ tailBefore (pathH x0 y0) j) ++ [pathH x0 y0 j] with
      | nil =>
        rw [hc] at hlen
        simp at hlen
        omega
      | cons a t =>
        cases t with
        | nil =>
          rw [hc] at hlen
          simp at hlen
          omega
        | cons b t2 =>
          unfold isThisShipVertical
          have hamem : a ∈ (tailAfter (pathH x0 y0) n j ++ tailBefore (pathH x0 y0) j)
              ++ [pathH x0 y0 j] := by
            rw [hc]
            exact List.mem_cons_self _ _
          have hbmem : b ∈ (tailAfter (pathH x0 y0) n j ++ tailBefore (pathH x0 y0) j)
              ++ [pathH x0 y0 j] := by
            rw [hc]
            exact List.mem_cons_of_mem _ (List.mem_cons_self _ _)
          obtain ⟨ia, hia, rfl⟩ := hmem a hamem
          obtain ⟨ib, hib, rfl⟩ := hmem b hbmem
          have hne : ia ≠ ib := by
            intro he
            subst he
            rw [hc] at hnodup
            rw [List.nodup_cons] at hnodup
            exact hnodup.1 (List.mem_cons_self _ _)
          have hneq : ¬((pathH x0 y0 ia).1 = (pathH x0 y0 ib).1) := by
            unfold pathH
            dsimp only
            omega
          show some (decide ((pathH x0 y0 ia).1 = (pathH x0 y0 ib).1)) = some false
          rw [decide_eq_false hneq]
    rw [hvert] at h
    simp only [] at h
    rw [if_neg (by simp : ¬(false = true))] at h
    -- evaluate the min/max scan
    cases hc : (tailAfter (pathH x0 y0) n j ++ tailBefore (pathH x0 y0) j) ++ [pathH x0 y0 j] with
    | nil =>
      rw [hc] at hlen
      simp at hlen
      omega
    | cons c0 rest =>
      rw [hc] at h
      have hltW : ∀ c ∈ c0 :: rest, (if false then c.2 else c.1) < p.boardWidth + 1 := by
        intro c hcm
        obtain ⟨i, hi, rfl⟩ := hmem c (hc ▸ hcm)
        rw [if_neg (by simp : ¬(false = true))]
        unfold pathH
        dsimp only
        omega
      have hpos : ∀ c ∈ c0 :: rest, 0 < (if false then c.2 else c.1) := by
        intro c hcm
        obtain ⟨i, hi, rfl⟩ := hmem c (hc ▸ hcm)
        rw [if_neg (by simp : ¬(false = true))]
        unfold pathH
        dsimp only
        omega
      obtain ⟨s', e', hres, hsmem, hemem, hsall, heall⟩ :=
        fse_fold_full false rest c0 (p.boardWidth + 1) hltW hpos
      rw [hres] at h
      simp only [Option.some.injEq, Prod.mk.injEq] at h
      obtain ⟨rfl, rfl⟩ := h
      obtain ⟨is, his, rfl⟩ := hmem s' (hc ▸ hsmem)
      obtain ⟨ie, hie, rfl⟩ := hmem e' (hc ▸ hemem)
      have hmin := hsall (pathH x0 y0 0) (hc ▸ hmem' 0 (by omega))
      have hmax := heall (pathH x0 y0 (n - 1)) (hc ▸ hmem' (n - 1) (by omega))
      simp only [if_neg (by simp : ¬(false = true))] at hmin hmax
      unfold pathH at hmin hmax
      constructor
      · have : is = 0 := by
          dsimp only at hmin
          omega
        rw [this]
      · have : ie = n - 1 := by
          dsimp only at hmax
          omega
        rw [this]

theorem getBetterTargetH {p : PlayerState} {x0 y0 : Int} {n : Nat}
    (hs : pathHSetup p x0 y0 n) (ffuel : Nat) {hits : List Cell} {rnd : List Nat}
    (hhits : ∀ c ∈ hits, ∃ i, i < n ∧ c = pathH x0 y0 i) {t : Cell} {rnd2 : List Nat}
    (h : getBetterTarget p ffuel hits rnd = some (t, rnd2)) :
    t = (x0 - 1, y0) ∨ t = (x0 + (n : Int), y0) := by
  have hn : 2 ≤ n := hs.1
  cases hits with
  | nil =>
    exact absurd h (by simp [getBetterTarget])
  | cons c0 rest =>
    unfold getBetterTarget at h
    obtain ⟨j, hj, rfl⟩ := hhits c0 (List.mem_cons_self _ _)
    simp only [] at h
    cases hfse : findStartAndEnd p ffuel (pathH x0 y0 j) with
    | none =>
      rw [hfse] at h
      simp at h
    | some pr =>
      obtain ⟨s, e⟩ := pr
      rw [hfse] at h
      obtain ⟨rfl, rfl⟩ := findStartAndEndH hs ffuel j hj hfse
      simp only [] at h
      have hsne : ¬((pathH x0 y0 0).1 = (pathH x0 y0 (n - 1)).1) := by
        unfold pathH
        dsimp only
        omega
      rw [if_neg hsne] at h
      cases rnd with
      | nil =>
        simp at h
      | cons m r =>
        simp only [Option.some.injEq, Prod.mk.injEq] at h
        obtain ⟨hteq, -⟩ := h
        have hsv : ((pathH x0 y0 0).1 - 1, (pathH x0 y0 0).2) = ((x0 - 1 : Int), y0) := by
          unfold pathH
          dsimp only
          rw [Prod.mk.injEq]
          constructor
          · push_cast
            ring
          · rfl
        have hev : ((pathH x0 y0 (n - 1)).1 + 1, (pathH x0 y0 (n - 1)).2) =
            ((x0 + (n : Int) : Int), y0) := by
          unfold pathH
          dsimp only
          rw [Prod.mk.injEq]
          constructor
          · omega
          · rfl
        by_cases hm : m % 2 = 0
        · rw [if_pos hm] at hteq
          left
          rw [← hteq]
          exact hsv
        · rw [if_neg hm] at hteq
          right
          rw [← hteq]
          exact hev

theorem selectTargetH {p : PlayerState} {x0 y0 : Int} {n : Nat}
    (hs : pathHSetup p x0 y0 n) {hits : List Cell}
    (hhunt : isThereAHunt p = some (true, hits))
    (hhits : ∀ c, c ∈ hits ↔ ∃ i, i < n ∧ c = pathH x0 y0 i)
    (ffuel fuel : Nat) (rnd : List Nat) {c : Cell} {p' : PlayerState} {r : List Nat}
    (h : selectTarget p ffuel fuel rnd = some (c, p', r)) :
    c = (x0 - 1, y0) ∨ c = (x0 + (n : Int), y0) := by
  have hn : 2 ≤ n := hs.1
  have h0 : pathH x0 y0 0 ∈ hits := (hhits _).mpr ⟨0, by omega, rfl⟩
  have h1 : pathH x0 y0 1 ∈ hits := (hhits _).mpr ⟨1, by omega, rfl⟩
  have hne01 : pathH x0 y0 0 ≠ pathH x0 y0 1 := by
    unfold pathH
    intro he
    rw [Prod.mk.injEq] at he
    omega
  have hlen : 1 < hits.length := by
    cases hhl : hits with
    | nil =>
      rw [hhl] at h0
      exact absurd h0 (List.not_mem_nil _)
    | cons a t =>
      cases t with
      | nil =>
        rw [hhl] at h0 h1
        rw [List.mem_singleton] at h0 h1
        exact absurd (h0.trans h1.symm) hne01
      | cons b t2 =>
        simp only [List.length_cons]
        omega
  unfold selectTarget generateRandomTarget at h
  rw [hhunt] at h
  simp only [] at h
  cases hg : grtLoop p ffuel true hits (decide (0 < p.sunkenShips.length)) fuel rnd with
  | none =>
    rw [hg] at h
    simp at h
  | some pr =>
    obtain ⟨c1, r1⟩ := pr
    rw [hg] at h
    simp only [Option.some.injEq, Prod.mk.injEq] at h
    obtain ⟨hceq, -, -⟩ := h
    obtain ⟨-, -, -, hhc⟩ := grtLoop_exit p ffuel true hits _ fuel rnd c1 r1 hg
    obtain ⟨rc, rnd1, rnd2, hhc⟩ := hhc rfl
    unfold huntingCell at hhc
    rw [if_pos hlen] at hhc
    cases hgb : getBetterTarget p ffuel hits rnd1 with
    | none =>
      rw [hgb] at hhc
      simp at hhc
    | some pr2 =>
      obtain ⟨t, rnd3⟩ := pr2
      rw [hgb] at hhc
      simp only [Option.some.injEq, Prod.mk.injEq, true_and] at hhc
      obtain ⟨hteq, -⟩ := hhc
      rw [← hceq, ← hteq]
      exact getBetterTargetH hs ffuel (fun c hc => (hhits c).mp hc) hgb

theorem pathV_fst (x0 y0 : Int) (i : Nat) : (pathV x0 y0 i).1 = x0 := rfl

theorem pathV_snd (x0 y0 : Int) (i : Nat) : (pathV x0 y0 i).2 = y0 + i := rfl

theorem floodV_down {p : PlayerState} {x0 y0 : Int} {n : Nat}
    (hs : pathVSetup p x0 y0 n) :
    ∀ fuel k l, 1 ≤ k → k < n →
      getAllCells p fuel (pathV x0 y0 k) (pathV x0 y0 (k - 1)) = some l →
      l = tailAfter (pathV x0 y0) n k := by
  obtain ⟨hn, ⟨hx1, hxW, hy1, hyn⟩, hS, hIso⟩ := hs
  have hNotS : ∀ (q : Cell) (i : Nat), i < n → chebAdj q (pathV x0 y0 i) →
      (∀ j, j < n → q ≠ pathV x0 y0 j) → q ∉ p.successfulHits := by
    intro q i hi hadj hne hq
    exact hIso q hq hne i hi hadj
  intro fuel
  induction fuel with
  | zero =>
    intro k l hk hkn h
    exact absurd h (by simp [getAllCells])
  | succ f ih =>
    intro k l hk hkn h
    rw [getAllCells_succ, pNeighboursF_shape, pathV_fst, pathV_snd] at h
    simp only [List.foldl_append] at h
    -- skip lemmas for the six off-run neighbours
    have hsR : ((x0 + 1), y0 + (k : Int)) ∉ p.successfulHits := by
      refine hNotS _ k hkn ?_ ?_
      · unfold chebAdj pathV
        dsimp only
        omega
      · intro j hj he
        unfold pathV at he
        rw [Prod.mk.injEq] at he
        omega
    have hsL : ((x0 - 1), y0 + (k : Int)) ∉ p.successfulHits := by
      refine hNotS _ k hkn ?_ ?_
      · unfold chebAdj pathV
        dsimp only
        omega
      · intro j hj he
        unfold pathV at he
        rw [Prod.mk.injEq] at he
        omega
    have hsTR : ((x0 + 1), y0 + (k : Int) - 1) ∉ p.successfulHits := by
      refine hNotS _ k hkn ?_ ?_
      · unfold chebAdj pathV
        dsimp only
        omega
      · intro j hj he
        unfold pathV at he
        rw [Prod.mk.injEq] at he
        omega
    have hsTL : ((x0 - 1), y0 + (k : Int) - 1) ∉ p.successfulHits := by
      refine hNotS _ k hkn ?_ ?_
      · unfold chebAdj pathV
        dsimp only
        omega
      · intro j hj he
        unfold pathV at he
        rw [Prod.mk.injEq] at he
        omega
    have hsBR : ((x0 + 1), y0 + (k : Int) + 1) ∉ p.successfulHits := by
      refine hNotS _ k hkn ?_ ?_
      · unfold chebAdj pathV
        dsimp only
        omega
      · intro j hj he
        unfold pathV at he
        rw [Prod.mk.injEq] at he
        omega
    have hsBL : ((x0 - 1), y0 + (k : Int) + 1) ∉ p.successfulHits := by
      refine hNotS _ k hkn ?_ ?_
      · unfold chebAdj pathV
        dsimp only
        omega
      · intro j hj he
        unfold pathV at he
        rw [Prod.mk.injEq] at he
        omega
    -- the top neighbour is the excluded parent
    have hTop : (x0, y0 + (k : Int) - 1) = pathV x0 y0 (k - 1) := by
      unfold pathV
      rw [Prod.mk.injEq]
      omega
    rw [foldl_guard_skip (Or.inl hsR)] at h
    rw [foldl_guard_skip (Or.inl hsL)] at h
    by_cases hkn1 : k + 1 < n
    · -- the bottom neighbour is collected
      have hgB : decide (y0 + (k : Int) ≤ p.boardHeight - 1) = true := by
        rw [decide_eq_true_eq]
        omega
      have hmemB : (x0, y0 + (k : Int) + 1) ∈ p.successfulHits := by
        have := hS (k + 1) hkn1
        unfold pathV at this
        have he : (x0, y0 + (k : Int) + 1) = (x0, (y0 + ((k : Nat) + 1 : Nat) : Int)) := by
          rw [Prod.mk.injEq]
          refine ⟨rfl, by push_cast; ring⟩
        rw [he]
        exact this
      have hneB : (x0, y0 + (k : Int) + 1) ≠ pathV x0 y0 (k - 1) := by
        unfold pathV
        rw [ne_eq, Prod.mk.injEq]
        omega
      rw [foldl_guard_collect hgB] at h
      rw [floodStep_collect hmemB hneB] at h
      cases hrec : getAllCells p f (x0, y0 + (k : Int) + 1) (pathV x0 y0 k) with
      | none =>
        rw [hrec] at h
        simp only [foldl_floodStep_none] at h
        exact absurd h (by simp)
      | some sub =>
        rw [hrec] at h
        simp only [] at h
        have hcall : getAllCells p f (pathV x0 y0 (k + 1)) (pathV x0 y0 ((k + 1) - 1)) = some sub := by
          have h1 : pathV x0 y0 (k + 1) = (x0, y0 + (k : Int) + 1) := by
            unfold pathV
            rw [Prod.mk.injEq]
            refine ⟨rfl, by push_cast; ring⟩
          have h2 : pathV x0 y0 ((k + 1) - 1) = pathV x0 y0 k := by
            norm_num
          rw [h1, h2]
          exact hrec
        have hsub := ih (k + 1) sub (by omega) hkn1 hcall
        rw [foldl_guard_skip (Or.inr hTop)] at h
        rw [foldl_guard_skip (Or.inl hsTR)] at h
        rw [foldl_guard_skip (Or.inl hsTL)] at h
        rw [foldl_guard_skip (Or.inl hsBR)] at h
        rw [foldl_guard_skip (Or.inl hsBL)] at h
        rw [Option.some_inj] at h
        subst h
        rw [hsub]
        unfold tailAfter
        have hlen : n - 1 - k = (n - 1 - (k + 1)) + 1 := by omega
        rw [hlen, List.range_succ_eq_map]
        simp only [List.map_cons, List.map_map, List.nil_append]
        congr 1
        · unfold pathV
          rw [Prod.mk.injEq]
          refine ⟨rfl, by push_cast; ring⟩
        · apply List.map_congr_left
          intro j hj
          simp only [Function.comp]
          congr 1
          omega
    · -- k is the bottom end of the run: the bottom neighbour is not a hit
      have hsB : (x0, y0 + (k : Int) + 1) ∉ p.successfulHits := by
        refine hNotS _ k hkn ?_ ?_
        · unfold chebAdj pathV
          dsimp only
          omega
        · intro j hj he
          unfold pathV at he
          rw [Prod.mk.injEq] at he
          omega
      rw [foldl_guard_skip (Or.inl hsB)] at h
      rw [foldl_guard_skip (Or.inr hTop)] at h
      rw [foldl_guard_skip (Or.inl hsTR)] at h
      rw [foldl_guard_skip (Or.inl hsTL)] at h
      rw [foldl_guard_skip (Or.inl hsBR)] at h
      rw [foldl_guard_skip (Or.inl hsBL)] at h
      rw [Option.some_inj] at h
      subst h
      unfold tailAfter
      have hlen : n - 1 - k = 0 := by omega
      rw [hlen]
      rfl

theorem floodV_up {p : PlayerState} {x0 y0 : Int} {n : Nat}
    (hs : pathVSetup p x0 y0 n) :
    ∀ fuel k l, k + 1 < n →
      getAllCells p fuel (pathV x0 y0 k) (pathV x0 y0 (k + 1)) = some l →
      l = tailBefore (pathV x0 y0) k := by
  obtain ⟨hn, ⟨hx1, hxW, hy1, hyn⟩, hS, hIso⟩ := hs
  have hNotS : ∀ (q : Cell) (i : Nat), i < n → chebAdj q (pathV x0 y0 i) →
      (∀ j, j < n → q ≠ pathV x0 y0 j) → q ∉ p.successfulHits := by
    intro q i hi hadj hne hq
    exact hIso q hq hne i hi hadj
  intro fuel
  induction fuel with
  | zero =>
    intro k l hkn h
    exact absurd h (by simp [getAllCells])
  | succ f ih =>
    intro k l hkn h
    have hkn' : k < n := by omega
    rw [getAllCells_succ, pNeighboursF_shape, pathV_fst, pathV_snd] at h
    simp only [List.foldl_append] at h
    have hsR : ((x0 + 1), y0 + (k : Int)) ∉ p.successfulHits := by
      refine hNotS _ k hkn' ?_ ?_
      · unfold chebAdj pathV
        dsimp only
        omega
      · intro j hj he
        unfold pathV at he
        rw [Prod.mk.injEq] at he
        omega
    have hsL : ((x0 - 1), y0 + (k : Int)) ∉ p.successfulHits := by
      refine hNotS _ k hkn' ?_ ?_
      · unfold chebAdj pathV
        dsimp only
        omega
      · intro j hj he
        unfold pathV at he
        rw [Prod.mk.injEq] at he
        omega
    have hsTR : ((x0 + 1), y0 + (k : Int) - 1) ∉ p.successfulHits := by
      refine hNotS _ k hkn' ?_ ?_
      · unfold chebAdj pathV
        dsimp only
        omega
      · intro j hj he
        unfold pathV at he
        rw [Prod.mk.injEq] at he
        omega
    have hsTL : ((x0 - 1), y0 + (k : Int) - 1) ∉ p.successfulHits := by
      refine hNotS _ k hkn' ?_ ?_
      · unfold chebAdj pathV
        dsimp only
        omega
      · intro j hj he
        unfold pathV at he
        rw [Prod.mk.injEq] at he
        omega
    have hsBR : ((x0 + 1), y0 + (k : Int) + 1) ∉ p.successfulHits := by
      refine hNotS _ k hkn' ?_ ?_
      · unfold chebAdj pathV
        dsimp only
        omega
      · intro j hj he
        unfold pathV at he
        rw [Prod.mk.injEq] at he
        omega
    have hsBL : ((x0 - 1), y0 + (k : Int) + 1) ∉ p.successfulHits := by
      refine hNotS _ k hkn' ?_ ?_
      · unfold chebAdj pathV
        dsimp only
        omega
      · intro j hj he
        unfold pathV at he
        rw [Prod.mk.injEq] at he
        omega
    -- the bottom neighbour is the excluded parent
    have hBottom : (x0, y0 + (k : Int) + 1) = pathV x0 y0 (k + 1) := by
      unfold pathV
      rw [Prod.mk.injEq]
      refine ⟨rfl, by push_cast; ring⟩
    rw [foldl_guard_skip (Or.inl hsR)] at h
    rw [foldl_guard_skip (Or.inl hsL)] at h
    rw [foldl_guard_skip (Or.inr hBottom)] at h
    by_cases hk1 : 1 ≤ k
    · -- the top neighbour is collected
      have hgT : decide (2 ≤ y0 + (k : Int)) = true := by
        rw [decide_eq_true_eq]
        omega
      have hmemT : (x0, y0 + (k : Int) - 1) ∈ p.successfulHits := by
        have := hS (k - 1) (by omega)
        unfold pathV at this
        have he : (x0, y0 + (k : Int) - 1) = (x0, (y0 + ((k : Nat) - 1 : Nat) : Int)) := by
          rw [Prod.mk.injEq]
          refine ⟨rfl, ?_⟩
          omega
        rw [he]
        exact this
      have hneT : (x0, y0 + (k : Int) - 1) ≠ pathV x0 y0 (k + 1) := by
        unfold pathV
        rw [ne_eq, Prod.mk.injEq]
        omega
      rw [foldl_guard_collect hgT] at h
      rw [floodStep_collect hmemT hneT] at h
      cases hrec : getAllCells p f (x0, y0 + (k : Int) - 1) (pathV x0 y0 k) with
      | none =>
        rw [hrec] at h
        simp only [foldl_floodStep_none] at h
        exact absurd h (by simp)
      | some sub =>
        rw [hrec] at h
        simp only [] at h
        have hcall : getAllCells p f (pathV x0 y0 (k - 1)) (pathV x0 y0 ((k - 1) + 1)) = some sub := by
          have h1 : pathV x0 y0 (k - 1) = (x0, y0 + (k : Int) - 1) := by
            unfold pathV
            rw [Prod.mk.injEq]
            refine ⟨rfl, ?_⟩
            omega
          have h2 : pathV x0 y0 ((k - 1) + 1) = pathV x0 y0 k := by
            congr 1
            omega
          rw [h1, h2]
          exact hrec
        have hsub := ih (k - 1) sub (by omega) hcall
        rw [foldl_guard_skip (Or.inl hsTR)] at h
        rw [foldl_guard_skip (Or.inl hsTL)] at h
        rw [foldl_guard_skip (Or.inl hsBR)] at h
        rw [foldl_guard_skip (Or.inl hsBL)] at h
        rw [Option.some_inj] at h
        subst h
        rw [hsub]
        unfold tailBefore
        have hlen : k = (k - 1) + 1 := by omega
        rw [show List.range k = List.range ((k - 1) + 1) from by rw [← hlen]]
        rw [List.range_succ_eq_map]
        simp only [List.map_cons, List.map_map, List.nil_append]
        congr 1
        · unfold pathV
          rw [Prod.mk.injEq]
          refine ⟨rfl, ?_⟩
          omega
        · apply List.map_congr_left
          intro j hj
          simp only [Function.comp]
          congr 1
          omega
    · -- k = 0: the top neighbour is off the run
      have hk0 : k = 0 := by omega
      have hsT : (x0, y0 + (k : Int) - 1) ∉ p.successfulHits := by
        refine hNotS _ k hkn' ?_ ?_
        · unfold chebAdj pathV
          dsimp only
          omega
        · intro j hj he
          unfold pathV at he
          rw [Prod.mk.injEq] at he
          omega
      rw [foldl_guard_skip (Or.inl hsT)] at h
      rw [foldl_guard_skip (Or.inl hsTR)] at h
      rw [foldl_guard_skip (Or.inl hsTL)] at h
      rw [foldl_guard_skip (Or.inl hsBR)] at h
      rw [foldl_guard_skip (Or.inl hsBL)] at h
      rw [Option.some_inj] at h
      subst h
      rw [hk0]
      rfl

theorem floodV_init {p : PlayerState} {x0 y0 : Int} {n : Nat}
    (hs : pathVSetup p x0 y0 n) :
    ∀ fuel j l, j < n →
      getAllCells p fuel (pathV x0 y0 j) (pathV x0 y0 j) = some l →
      l = tailAfter (pathV x0 y0) n j ++ tailBefore (pathV x0 y0) j := by
  obtain ⟨hn, ⟨hx1, hxW, hy1, hyn⟩, hS, hIso⟩ := hs
  have hsetup : pathVSetup p x0 y0 n := ⟨hn, ⟨hx1, hxW, hy1, hyn⟩, hS, hIso⟩
  have hNotS : ∀ (q : Cell) (i : Nat), i < n → chebAdj q (pathV x0 y0 i) →
      (∀ j, j < n → q ≠ pathV x0 y0 j) → q ∉ p.successfulHits := by
    intro q i hi hadj hne hq
    exact hIso q hq hne i hi hadj
  intro fuel
  cases fuel with
  | zero =>
    intro j l hj h
    exact absurd h (by simp [getAllCells])
  | succ f =>
    intro j l hj h
    rw [getAllCells_succ, pNeighboursF_shape, pathV_fst, pathV_snd] at h
    simp only [List.foldl_append] at h
    have hsR : ((x0 + 1), y0 + (j : Int)) ∉ p.successfulHits := by
      refine hNotS _ j hj ?_ ?_
      · unfold chebAdj pathV
        dsimp only
        omega
      · intro i hi he
        unfold pathV at he
        rw [Prod.mk.injEq] at he
        omega
    have hsL : ((x0 - 1), y0 + (j : Int)) ∉ p.successfulHits := by
      refine hNotS _ j hj ?_ ?_
      · unfold chebAdj pathV
        dsimp only
        omega
      · intro i hi he
        unfold pathV at he
        rw [Prod.mk.injEq] at he
        omega
    have hsTR : ((x0 + 1), y0 + (j : Int) - 1) ∉ p.successfulHits := by
      refine hNotS _ j hj ?_ ?_
      · unfold chebAdj pathV
        dsimp only
        omega
      · intro i hi he
        unfold pathV at he
        rw [Prod.mk.injEq] at he
        omega
    have hsTL : ((x0 - 1), y0 + (j : Int) - 1) ∉ p.successfulHits := by
      refine hNotS _ j hj ?_ ?_
      · unfold chebAdj pathV
        dsimp only
        omega
      · intro i hi he
        unfold pathV at he
        rw [Prod.mk.injEq] at he
        omega
    have hsBR : ((x0 + 1), y0 + (j : Int) + 1) ∉ p.successfulHits := by
      refine hNotS _ j hj ?_ ?_
      · unfold chebAdj pathV
        dsimp only
        omega
      · intro i hi he
        unfold pathV at he
        rw [Prod.mk.injEq] at he
        omega
    have hsBL : ((x0 - 1), y0 + (j : Int) + 1) ∉ p.successfulHits := by
      refine hNotS _ j hj ?_ ?_
      · unfold chebAdj pathV
        dsimp only
        omega
      · intro i hi he
        unfold pathV at he
        rw [Prod.mk.injEq] at he
        omega
    cases hpre : List.foldl
        (floodStep p (fun q => getAllCells p f q (pathV x0 y0 j)) (pathV x0 y0 j))
        (List.foldl (floodStep p (fun q => getAllCells p f q (pathV x0 y0 j)) (pathV x0 y0 j))
          (List.foldl (floodStep p (fun q => getAllCells p f q (pathV x0 y0 j)) (pathV x0 y0 j))
            (List.foldl (floodStep p (fun q => getAllCells p f q (pathV x0 y0 j)) (pathV x0 y0 j))
              (some [])
              (if decide (x0 ≤ p.boardWidth - 1) then [((x0 + 1), y0 + (j : Int))] else []))
            (if decide (2 ≤ x0) then [((x0 - 1), y0 + (j : Int))] else []))
          (if decide (y0 + (j : Int) ≤ p.boardHeight - 1) then [(x0, y0 + (j : Int) + 1)] else []))
        (if decide (2 ≤ y0 + (j : Int)) then [(x0, y0 + (j : Int) - 1)] else []) with
    | none =>
      rw [hpre] at h
      simp only [foldl_floodStep_none] at h
      exact absurd h (by simp)
    | some l0 =>
      rw [hpre] at h
      rw [foldl_guard_skip (Or.inl hsTR)] at h
      rw [foldl_guard_skip (Or.inl hsTL)] at h
      rw [foldl_guard_skip (Or.inl hsBR)] at h
      rw [foldl_guard_skip (Or.inl hsBL)] at h
      rw [Option.some_inj] at h
      subst h
      -- analyse the four-segment prefix
      rw [foldl_guard_skip (Or.inl hsR)] at hpre
      rw [foldl_guard_skip (Or.inl hsL)] at hpre
      by_cases hj1 : j + 1 < n
      · have hgB : decide (y0 + (j : Int) ≤ p.boardHeight - 1) = true := by
          rw [decide_eq_true_eq]
          omega
        have hmemB : (x0, y0 + (j : Int) + 1) ∈ p.successfulHits := by
          have := hS (j + 1) hj1
          unfold pathV at this
          have he : (x0, y0 + (j : Int) + 1) = (x0, (y0 + ((j : Nat) + 1 : Nat) : Int)) := by
            rw [Prod.mk.injEq]
            refine ⟨rfl, by push_cast; ring⟩
          rw [he]
          exact this
        have hneB : (x0, y0 + (j : Int) + 1) ≠ pathV x0 y0 j := by
          unfold pathV
          rw [ne_eq, Prod.mk.injEq]
          omega
        rw [foldl_guard_collect hgB, floodStep_collect hmemB hneB] at hpre
        cases hrecB : getAllCells p f (x0, y0 + (j : Int) + 1) (pathV x0 y0 j) with
        | none =>
          rw [hrecB] at hpre
          simp only [foldl_floodStep_none] at hpre
          exact absurd hpre (by simp)
        | some subB =>
          rw [hrecB] at hpre
          simp only [] at hpre
          have hcallB : getAllCells p f (pathV x0 y0 (j + 1))
              (pathV x0 y0 ((j + 1) - 1)) = some subB := by
            have h1 : pathV x0 y0 (j + 1) = (x0, y0 + (j : Int) + 1) := by
              unfold pathV
              rw [Prod.mk.injEq]
              refine ⟨rfl, by push_cast; ring⟩
            have h2 : pathV x0 y0 ((j + 1) - 1) = pathV x0 y0 j := by
              congr 1
            rw [h1, h2]
            exact hrecB
          have hsubB := floodV_down hsetup f (j + 1) subB (by omega) hj1 hcallB
          have hA : (x0, y0 + (j : Int) + 1) :: tailAfter (pathV x0 y0) n (j + 1) =
              tailAfter (pathV x0 y0) n j := by
            unfold tailAfter
            have hlen : n - 1 - j = (n - 1 - (j + 1)) + 1 := by omega
            rw [hlen, List.range_succ_eq_map]
            simp only [List.map_cons, List.map_map]
            congr 1
            · unfold pathV
              rw [Prod.mk.injEq]
              refine ⟨rfl, by push_cast; ring⟩
            · apply List.map_congr_left
              intro i hi
              simp only [Function.comp]
              congr 1
              omega
          by_cases hjl : 1 ≤ j
          · have hgT : decide (2 ≤ y0 + (j : Int)) = true := by
              rw [decide_eq_true_eq]
              omega
            have hmemT : (x0, y0 + (j : Int) - 1) ∈ p.successfulHits := by
              have := hS (j - 1) (by omega)
              unfold pathV at this
              have he : (x0, y0 + (j : Int) - 1) = (x0, (y0 + ((j : Nat) - 1 : Nat) : Int)) := by
                rw [Prod.mk.injEq]
                refine ⟨rfl, by omega⟩
              rw [he]
              exact this
            have hneT : (x0, y0 + (j : Int) - 1) ≠ pathV x0 y0 j := by
              unfold pathV
              rw [ne_eq, Prod.mk.injEq]
              omega
            rw [foldl_guard_collect hgT, floodStep_collect hmemT hneT] at hpre
            cases hrecT : getAllCells p f (x0, y0 + (j : Int) - 1) (pathV x0 y0 j) with
            | none =>
              rw [hrecT] at hpre
              exact absurd hpre (by simp)
            | some subT =>
              rw [hrecT] at hpre
              simp only [] at hpre
              have hcallT : getAllCells p f (pathV x0 y0 (j - 1))
                  (pathV x0 y0 ((j - 1) + 1)) = some subT := by
                have h1 : pathV x0 y0 (j - 1) = (x0, y0 + (j : Int) - 1) := by
                  unfold pathV
                  rw [Prod.mk.injEq]
                  refine ⟨rfl, by omega⟩
                have h2 : pathV x0 y0 ((j - 1) + 1) = pathV x0 y0 j := by
                  congr 1
                  omega
                rw [h1, h2]
                exact hrecT
              have hsubT := floodV_up hsetup f (j - 1) subT (by omega) hcallT
              have hB : (x0, y0 + (j : Int) - 1) :: tailBefore (pathV x0 y0) (j - 1) =
                  tailBefore (pathV x0 y0) j := by
                unfold tailBefore
                rw [show List.range j = List.range ((j - 1) + 1) from by congr 1; omega]
                rw [List.range_succ_eq_map]
                simp only [List.map_cons, List.map_map]
                congr 1
                · unfold pathV
                  rw [Prod.mk.injEq]
                  refine ⟨rfl, by omega⟩
                · apply List.map_congr_left
                  intro i hi
                  simp only [Function.comp]
                  congr 1
                  omega
              rw [Option.some_inj] at hpre
              subst hpre
              rw [hsubB, hsubT, List.nil_append, ← hA, ← hB]
          · have hj0 : j = 0 := by omega
            have hsT : (x0, y0 + (j : Int) - 1) ∉ p.successfulHits := by
              refine hNotS _ j hj ?_ ?_
              · unfold chebAdj pathV
                dsimp only
                omega
              · intro i hi he
                unfold pathV at he
                rw [Prod.mk.injEq] at he
                omega
            rw [foldl_guard_skip (Or.inl hsT)] at hpre
            rw [Option.some_inj] at hpre
            subst hpre
            rw [hsubB, List.nil_append, ← hA]
            rw [hj0]
            simp [tailBefore]
      · -- j = n - 1: the bottom neighbour is off the run, the top is collected
        have hsB : (x0, y0 + (j : Int) + 1) ∉ p.successfulHits := by
          refine hNotS _ j hj ?_ ?_
          · unfold chebAdj pathV
            dsimp only
            omega
          · intro i hi he
            unfold pathV at he
            rw [Prod.mk.injEq] at he
            omega
        rw [foldl_guard_skip (Or.inl hsB)] at hpre
        have hjl : 1 ≤ j := by omega
        have hgT : decide (2 ≤ y0 + (j : Int)) = true := by
          rw [decide_eq_true_eq]
          omega
        have hmemT : (x0, y0 + (j : Int) - 1) ∈ p.successfulHits := by
          have := hS (j - 1) (by omega)
          unfold pathV at this
          have he : (x0, y0 + (j : Int) - 1) = (x0, (y0 + ((j : Nat) - 1 : Nat) : Int)) := by
            rw [Prod.mk.injEq]
            refine ⟨rfl, by omega⟩
          rw [he]
          exact this
        have hneT : (x0, y0 + (j : Int) - 1) ≠ pathV x0 y0 j := by
          unfold pathV
          rw [ne_eq, Prod.mk.injEq]
          omega
        rw [foldl_guard_collect hgT, floodStep_collect hmemT hneT] at hpre
        cases hrecT : getAllCells p f (x0, y0 + (j : Int) - 1) (pathV x0 y0 j) with
        | none =>
          rw [hrecT] at hpre
          exact absurd hpre (by simp)
        | some subT =>
          rw [hrecT] at hpre
          simp only [] at hpre
          have hcallT : getAllCells p f (pathV x0 y0 (j - 1))
              (pathV x0 y0 ((j - 1) + 1)) = some subT := by
            have h1 : pathV x0 y0 (j - 1) = (x0, y0 + (j : Int) - 1) := by
              unfold pathV
              rw [Prod.mk.injEq]
              refine ⟨rfl, by omega⟩
            have h2 : pathV x0 y0 ((j - 1) + 1) = pathV x0 y0 j := by
              congr 1
              omega
            rw [h1, h2]
            exact hrecT
          have hsubT := floodV_up hsetup f (j - 1) subT (by omega) hcallT
          have hB : (x0, y0 + (j : Int) - 1) :: tailBefore (pathV x0 y0) (j - 1) =
              tailBefore (pathV x0 y0) j := by
            unfold tailBefore
            rw [show List.range j = List.range ((j - 1) + 1) from by congr 1; omega]
            rw [List.range_succ_eq_map]
            simp only [List.map_cons, List.map_map]
            congr 1
            · unfold pathV
              rw [Prod.mk.injEq]
              refine ⟨rfl, by omega⟩
            · apply List.map_congr_left
              intro i hi
              simp only [Function.comp]
              congr 1
              omega
          rw [Option.some_inj] at hpre
          subst hpre
          rw [hsubT, List.nil_append, ← hB]
          have hafter : tailAfter (pathV x0 y0) n j = [] := by
            unfold tailAfter
            rw [show n - 1 - j = 0 from by omega]
            rfl
          rw [hafter, List.nil_append]

theorem findStartAndEndV {p : PlayerState} {x0 y0 : Int} {n : Nat}
    (hs : pathVSetup p x0 y0 n) (ffuel : Nat) (j : Nat) (hj : j < n) {s e : Cell}
    (h : findStartAndEnd p ffuel (pathV x0 y0 j) = some (s, e)) :
    s = pathV x0 y0 0 ∧ e = pathV x0 y0 (n - 1) := by
  obtain ⟨hn, ⟨hx1, hxW, hy1, hyn⟩, hS, hIso⟩ := hs
  have hsetup : pathVSetup p x0 y0 n := ⟨hn, ⟨hx1, hxW, hy1, hyn⟩, hS, hIso⟩
  unfold findStartAndEnd at h
  cases hfl : getAllCells p ffuel (pathV x0 y0 j) (pathV x0 y0 j) with
  | none =>
    rw [hfl] at h
    simp at h
  | some flood =>
    rw [hfl] at h
    simp only [] at h
    have hflood := floodV_init hsetup ffuel j flood hj hfl
    subst hflood
    have hmem : ∀ c ∈ (tailAfter (pathV x0 y0) n j ++ tailBefore (pathV x0 y0) j)
        ++ [pathV x0 y0 j], ∃ i, i < n ∧ c = pathV x0 y0 i := by
      intro c hc
      rcases List.mem_append.mp hc with hc | hc
      · rcases List.mem_append.mp hc with hc | hc
        · obtain ⟨i, h1, h2, rfl⟩ := mem_tailAfter hc
          exact ⟨i, h2, rfl⟩
        · obtain ⟨i, h1, rfl⟩ := mem_tailBefore hc
          exact ⟨i, by omega, rfl⟩
      · rw [List.mem_singleton.mp hc]
        exact ⟨j, hj, rfl⟩
    have hmem' : ∀ i, i < n → pathV x0 y0 i ∈
        (tailAfter (pathV x0 y0) n j ++ tailBefore (pathV x0 y0) j) ++ [pathV x0 y0 j] := by
      intro i hi
      rcases Nat.lt_trichotomy i j with hij | rfl | hij
      · exact List.mem_append.mpr (Or.inl (List.mem_append.mpr (Or.inr (tailBefore_mem hij))))
      · exact List.mem_append.mpr (Or.inr (List.mem_singleton.mpr rfl))
      · exact List.mem_append.mpr (Or.inl (List.mem_append.mpr (Or.inl (tailAfter_mem hij hi))))
    have hlen : ((tailAfter (pathV x0 y0) n j ++ tailBefore (pathV x0 y0) j)
        ++ [pathV x0 y0 j]).length = n := by
      rw [tailAfter_eq_map, tailBefore_eq_map]
      simp only [List.length_append, List.length_map, List.length_range, List.length_singleton]
      omega
    rw [if_neg (by rw [hlen]; omega)] at h
    -- orientation: all run cells share their first coordinate, so vertical
    have hvert : isThisShipVertical
        ((tailAfter (pathV x0 y0) n j ++ tailBefore (pathV x0 y0) j) ++ [pathV x0 y0 j]) =
        some true := by
      cases hc : (tailAfter (pathV x0 y0) n j ++ tailBefore (pathV x0 y0) j) ++ [pathV x0 y0 j] with
      | nil =>
        rw [hc] at hlen
        simp at hlen
        omega
      | cons a t =>
        cases t with
        | nil =>
          rw [hc] at hlen
          simp at hlen
          omega
        | cons b t2 =>
          unfold isThisShipVertical
          have hamem : a ∈ (tailAfter (pathV x0 y0) n j ++ tailBefore (pathV x0 y0) j)
              ++ [pathV x0 y0 j] := by
            rw [hc]
            exact List.mem_cons_self _ _
          have hbmem : b ∈ (tailAfter (pathV x0 y0) n j ++ tailBefore (pathV x0 y0) j)
              ++ [pathV x0 y0 j] := by
            rw [hc]
            exact List.mem_cons_of_mem _ (List.mem_cons_self _ _)
          obtain ⟨ia, hia, rfl⟩ := hmem a hamem
          obtain ⟨ib, hib, rfl⟩ := hmem b hbmem
          show some (decide ((pathV x0 y0 ia).1 = (pathV x0 y0 ib).1)) = some true
          rw [decide_eq_true (show (pathV x0 y0 ia).1 = (pathV x0 y0 ib).1 from rfl)]
    rw [hvert] at h
    simp only [] at h
    rw [if_pos (trivial : True)] at h
    -- evaluate the min/max scan
    cases hc : (tailAfter (pathV x0 y0) n j ++ tailBefore (pathV x0 y0) j) ++ [pathV x0 y0 j] with
    | nil =>
      rw [hc] at hlen
      simp at hlen
      omega
    | cons c0 rest =>
      rw [hc] at h
      have hltH : ∀ c ∈ c0 :: rest, (if true then c.2 else c.1) < p.boardHeight + 1 := by
        intro c hcm
        obtain ⟨i, hi, rfl⟩ := hmem c (hc ▸ hcm)
        rw [if_pos (rfl : true = true)]
        unfold pathV
        dsimp only
        omega
      have hpos : ∀ c ∈ c0 :: rest, 0 < (if true then c.2 else c.1) := by
        intro c hcm
        obtain ⟨i, hi, rfl⟩ := hmem c (hc ▸ hcm)
        rw [if_pos (rfl : true = true)]
        unfold pathV
        dsimp only
        omega
      obtain ⟨s', e', hres, hsmem, hemem, hsall, heall⟩ :=
        fse_fold_full true rest c0 (p.boardHeight + 1) hltH hpos
      rw [hres] at h
      simp only [Option.some.injEq, Prod.mk.injEq] at h
      obtain ⟨rfl, rfl⟩ := h
      obtain ⟨is, his, rfl⟩ := hmem s' (hc ▸ hsmem)
      obtain ⟨ie, hie, rfl⟩ := hmem e' (hc ▸ hemem)
      have hmin := hsall (pathV x0 y0 0) (hc ▸ hmem' 0 (by omega))
      have hmax := heall (pathV x0 y0 (n - 1)) (hc ▸ hmem' (n - 1) (by omega))
      simp only [eq_self_iff_true, if_true] at hmin hmax
      unfold pathV at hmin hmax
      constructor
      · have : is = 0 := by
          dsimp only at hmin
          omega
        rw [this]
      · have : ie = n - 1 := by
          dsimp only at hmax
          omega
        rw [this]

theorem getBetterTargetV {p : PlayerState} {x0 y0 : Int} {n : Nat}
    (hs : pathVSetup p x0 y0 n) (ffuel : Nat) {hits : List Cell} {rnd : List Nat}
    (hhits : ∀ c ∈ hits, ∃ i, i < n ∧ c = pathV x0 y0 i) {t : Cell} {rnd2 : List Nat}
    (h : getBetterTarget p ffuel hits rnd = some (t, rnd2)) :
    t = (x0, y0 - 1) ∨ t = (x0, y0 + (n : Int)) := by
  have hn : 2 ≤ n := hs.1
  cases hits with
  | nil =>
    exact absurd h (by simp [getBetterTarget])
  | cons c0 rest =>
    unfold getBetterTarget at h
    obtain ⟨j, hj, rfl⟩ := hhits c0 (List.mem_cons_self _ _)
    simp only [] at h
    cases hfse : findStartAndEnd p ffuel (pathV x0 y0 j) with
    | none =>
      rw [hfse] at h
      simp at h
    | some pr =>
      obtain ⟨s, e⟩ := pr
      rw [hfse] at h
      obtain ⟨rfl, rfl⟩ := findStartAndEndV hs ffuel j hj hfse
      simp only [] at h
      have hseq : (pathV x0 y0 0).1 = (pathV x0 y0 (n - 1)).1 := rfl
      rw [if_pos hseq] at h
      cases rnd with
      | nil =>
        simp at h
      | cons m r =>
        simp only [Option.some.injEq, Prod.mk.injEq] at h
        obtain ⟨hteq, -⟩ := h
        have hsv : ((pathV x0 y0 0).1, (pathV x0 y0 0).2 - 1) = ((x0 : Int), y0 - 1) := by
          unfold pathV
          dsimp only
          rw [Prod.mk.injEq]
          refine ⟨rfl, ?_⟩
          push_cast
          ring
        have hev : ((pathV x0 y0 (n - 1)).1, (pathV x0 y0 (n - 1)).2 + 1) =
            ((x0 : Int), y0 + (n : Int)) := by
          unfold pathV
          dsimp only
          rw [Prod.mk.injEq]
          refine ⟨rfl, ?_⟩
          omega
        by_cases hm : m % 2 = 0
        · rw [if_pos hm] at hteq
          left
          rw [← hteq]
          exact hsv
        · rw [if_neg hm] at hteq
          right
          rw [← hteq]
          exact hev

theorem selectTargetV {p : PlayerState} {x0 y0 : Int} {n : Nat}
    (hs : pathVSetup p x0 y0 n) {hits : List Cell}
    (hhunt : isThereAHunt p = some (true, hits))
    (hhits : ∀ c, c ∈ hits ↔ ∃ i, i < n ∧ c = pathV x0 y0 i)
    (ffuel fuel : Nat) (rnd : List Nat) {c : Cell} {p' : PlayerState} {r : List Nat}
    (h : selectTarget p ffuel fuel rnd = some (c, p', r)) :
    c = (x0, y0 - 1) ∨ c = (x0, y0 + (n : Int)) := by
  have hn : 2 ≤ n := hs.1
  have h0 : pathV x0 y0 0 ∈ hits := (hhits _).mpr ⟨0, by omega, rfl⟩
  have h1 : pathV x0 y0 1 ∈ hits := (hhits _).mpr ⟨1, by omega, rfl⟩
  have hne01 : pathV x0 y0 0 ≠ pathV x0 y0 1 := by
    unfold pathV
    intro he
    rw [Prod.mk.injEq] at he
    omega
  have hlen : 1 < hits.length := by
    cases hhl : hits with
    | nil =>
      rw [hhl] at h0
      exact absurd h0 (List.not_mem_nil _)
    | cons a t =>
      cases t with
      | nil =>
        rw [hhl] at h0 h1
        rw [List.mem_singleton] at h0 h1
        exact absurd (h0.trans h1.symm) hne01
      | cons b t2 =>
        simp only [List.length_cons]
        omega
  unfold selectTarget generateRandomTarget at h
  rw [hhunt] at h
  simp only [] at h
  cases hg : grtLoop p ffuel true hits (decide (0 < p.sunkenShips.length)) fuel rnd with
  | none =>
    rw [hg] at h
    simp at h
  | some pr =>
    obtain ⟨c1, r1⟩ := pr
    rw [hg] at h
    simp only [Option.some.injEq, Prod.mk.injEq] at h
    obtain ⟨hceq, -, -⟩ := h
    obtain ⟨-, -, -, hhc⟩ := grtLoop_exit p ffuel true hits _ fuel rnd c1 r1 hg
    obtain ⟨rc, rnd1, rnd2, hhc⟩ := hhc rfl
    unfold huntingCell at hhc
    rw [if_pos hlen] at hhc
    cases hgb : getBetterTarget p ffuel hits rnd1 with
    | none =>
      rw [hgb] at hhc
      simp at hhc
    | some pr2 =>
      obtain ⟨t, rnd3⟩ := pr2
      rw [hgb] at hhc
      simp only [Option.some.injEq, Prod.mk.injEq, true_and] at hhc
      obtain ⟨hteq, -⟩ := hhc
      rw [← hceq, ← hteq]
      exact getBetterTargetV hs ffuel (fun c hc => (hhits c).mp hc) hgb

/-- Claim C4, amended: when the recorded open hits are exactly a
4-directionally contiguous straight run of two or more cells inside the
board, with no other recorded successful hit within one grid-step
(diagonals included) of any run cell, `select_target` returns one of the
two cells immediately beyond the run's extremities: left/right of the run
for a horizontal run, above/below it for a vertical run. -/
theorem select_target_line_beyond_extremities :
    (∀ (p : PlayerState) (x0 y0 : Int) (n : Nat) (hits : List Cell)
        (ffuel fuel : Nat) (rnd : List Nat) (c : Cell) (p' : PlayerState) (r : List Nat),
        pathHSetup p x0 y0 n →
        isThereAHunt p = some (true, hits) →
        (∀ q, q ∈ hits ↔ ∃ i, i < n ∧ q = pathH x0 y0 i) →
        selectTarget p ffuel fuel rnd = some (c, p', r) →
        c = (x0 - 1, y0) ∨ c = (x0 + (n : Int), y0))
    ∧ (∀ (p : PlayerState) (x0 y0 : Int) (n : Nat) (hits : List Cell)
        (ffuel fuel : Nat) (rnd : List Nat) (c : Cell) (p' : PlayerState) (r : List Nat),
        pathVSetup p x0 y0 n →
        isThereAHunt p = some (true, hits) →
        (∀ q, q ∈ hits ↔ ∃ i, i < n ∧ q = pathV x0 y0 i) →
        selectTarget p ffuel fuel rnd = some (c, p', r) →
        c = (x0, y0 - 1) ∨ c = (x0, y0 + (n : Int))) := by
  constructor
  · intro p x0 y0 n hits ffuel fuel rnd c p' r hs hhunt hhits hsel
    exact selectTargetH hs hhunt hhits ffuel fuel rnd hsel
  · intro p x0 y0 n hits ffuel fuel rnd c p' r hs hhunt hhits hsel
    exact selectTargetV hs hhunt hhits ffuel fuel rnd hsel

theorem select_target_line_beyond_extremities_witness :
    (((1 : Int), (5 : Int)) = ((2 : Int) - 1, (5 : Int))
      ∨ ((1 : Int), (5 : Int)) = ((2 : Int) + ((2 : Nat) : Int), (5 : Int)))
    ∧ (((5 : Int), (1 : Int)) = ((5 : Int), (2 : Int) - 1)
      ∨ ((5 : Int), (1 : Int)) = ((5 : Int), (2 : Int) + ((2 : Nat) : Int))) := by
  constructor
  · refine select_target_line_beyond_extremities.1
      ⟨10, 10, {(2, 5), (3, 5)}, [], [(2, 5), (3, 5)]⟩ 2 5 2
      [((2 : Int), (5 : Int)), ((3 : Int), (5 : Int))] 5 3 [0, 0, 0]
      ((1 : Int), (5 : Int))
      ⟨10, 10, insert ((1 : Int), (5 : Int)) {(2, 5), (3, 5)}, [], [(2, 5), (3, 5)]⟩ []
      (by refine ⟨?_, ?_, ?_, ?_⟩ <;> decide) (by decide) ?_ (by decide)
    intro q
    constructor
    · intro hq
      rcases List.mem_cons.mp hq with rfl | hq
      · exact ⟨0, by omega, by decide⟩
      · rw [List.mem_singleton] at hq
        subst hq
        exact ⟨1, by omega, by decide⟩
    · rintro ⟨i, hi, rfl⟩
      interval_cases i <;> decide
  · refine select_target_line_beyond_extremities.2
      ⟨10, 10, {(5, 2), (5, 3)}, [], [(5, 2), (5, 3)]⟩ 5 2 2
      [((5 : Int), (2 : Int)), ((5 : Int), (3 : Int))] 5 3 [0, 0, 0]
      ((5 : Int), (1 : Int))
      ⟨10, 10, insert ((5 : Int), (1 : Int)) {(5, 2), (5, 3)}, [], [(5, 2), (5, 3)]⟩ []
      (by refine ⟨?_, ?_, ?_, ?_⟩ <;> decide) (by decide) ?_ (by decide)
    intro q
    constructor
    · intro hq
      rcases List.mem_cons.mp hq with rfl | hq
      · exact ⟨0, by omega, by decide⟩
      · rw [List.mem_singleton] at hq
        subst hq
        exact ⟨1, by omega, by decide⟩
    · rintro ⟨i, hi, rfl⟩
      interval_cases i <;> decide
